import Mathlib

/-!
The package jsonsig: signatures of JSON documents.

A shallow embedding of `sign.go` and `verify.go`.

* Go values held in an `interface{}` are the inductive type `GoVal`.
* A `map[string]interface{}` is an association list with one entry per key
  (`NodupKeys`); the order of the list is one of the orders in which Go may
  range over the map.
* Byte slices are `List Nat`; a slice that may be `nil` is an `Option`.
* Instants are `Int` nanoseconds since the Unix epoch, durations are `int64`
  nanosecond counts held in `Int`, with the wrap-around written out.
* The clock is the explicit argument `now`.
* The standard library (SHA-1, RSA, ASN.1, base64, RFC 3339, and the way
  `encoding/json` renders strings and numbers) is the record `Lib`.
* `log.Fatalf` and run-time panics are outcomes of `Run`.
-/

namespace JsonSig

/-! ## Data model -/

abbrev Bytes := List Nat

/-- The type `rsa.PublicKey`. -/
structure RSAPublicKey where
  N : Int
  E : Int
  deriving DecidableEq, Repr

/-- The type `rsa.PrivateKey`: the public part and the private exponent. -/
structure RSAPrivateKey where
  PublicKey : RSAPublicKey
  D : Int
  deriving DecidableEq, Repr

/-- The struct `Signature` of `sign.go`. `Date` and `Expiration` are pointers
(`none` is `nil`), the two byte slices may be `nil`. -/
structure Signature where
  PublicKey : RSAPublicKey
  Date : Option Int
  Expiration : Option Int
  messageDigest : Option Bytes
  signatureBytes : Option Bytes
  deriving DecidableEq, Repr

/-- A Go value held in an `interface{}`. The first six constructors are what
`json.Unmarshal` produces (`num` is a finite `float64`); `sig` is a non-nil
`*Signature`, which `AddSignature` stores in the message; `unsupported` is a
value `json.Marshal` rejects (a channel, a function, a NaN or infinite
`float64`). -/
inductive GoVal where
  | null
  | bool (b : Bool)
  | num (x : ℚ)
  | str (s : String)
  | arr (xs : List GoVal)
  | obj (m : List (String × GoVal))
  | sig (s : Signature)
  | unsupported

/-- A `map[string]interface{}`. -/
abbrev GoMap := List (String × GoVal)

/-- The representation invariant of a Go map: one entry per key. -/
def NodupKeys (m : GoMap) : Prop := (m.map Prod.fst).Nodup

instance (m : GoMap) : Decidable (NodupKeys m) := by
  unfold NodupKeys; infer_instance

/-- The errors of `verify.go`, and the errors `CreateSignature` passes on from
`json.Marshal` and `rsa.SignPKCS1v15`. -/
inductive Error where
  | NoSignatureErr
  | StructureErr
  | VerifyErr
  | TimeErr
  | jsonErr
  | rsaErr
  deriving DecidableEq, Repr

/-- How a call ends: it returns, the process exits in `log.Fatalf`, or the
goroutine panics. -/
inductive Run (α : Type) where
  | ret (a : α)
  | exit
  | panic
  deriving DecidableEq, Repr

/-- The standard-library functions the package calls. -/
structure Lib where
  /-- The function `sha1.Sum`. -/
  sha1 : Bytes → Bytes
  /-- The function `rsa.SignPKCS1v15` with `crypto.SHA1`; `none` is an error. -/
  rsaSign : RSAPrivateKey → Bytes → Option Bytes
  /-- The function `rsa.VerifyPKCS1v15` with `crypto.SHA1`; `true` is a nil error. -/
  rsaVerify : RSAPublicKey → Bytes → Bytes → Bool
  /-- The function `asn1.Marshal` on an `rsa.PublicKey`. -/
  asn1Marshal : RSAPublicKey → Option Bytes
  /-- The function `asn1.Unmarshal` into an `rsa.PublicKey`. -/
  asn1Unmarshal : Bytes → Option RSAPublicKey
  /-- The function `base64.StdEncoding.EncodeToString`. -/
  b64encode : Bytes → String
  /-- The function `base64.StdEncoding.DecodeString`. -/
  b64decode : String → Option Bytes
  /-- How `encoding/json` writes a string (quotes and escapes). -/
  jsonString : String → Bytes
  /-- How `encoding/json` writes a finite `float64`. -/
  jsonNumber : ℚ → Bytes
  /-- The call `Time.Format(time.RFC3339)`. -/
  formatRFC3339 : Int → String
  /-- The call `time.Parse(time.RFC3339Nano, _)`. -/
  parseRFC3339 : String → Option Int

/-! ## Machine integers and time -/

/-- The constant `time.Second`. -/
def Second : Int := 1000000000

/-- The constant `time.Minute`. -/
def Minute : Int := 60 * Second

/-- An `int64` result after wrap-around. -/
def wrap64 (x : Int) : Int := (x + 2 ^ 63) % 2 ^ 64 - 2 ^ 63

/-- The method `Time.Sub`: the difference, saturated to the `int64` range. -/
def timeSub (t u : Int) : Int :=
  if t - u < -(2 ^ 63) then -(2 ^ 63)
  else if 2 ^ 63 - 1 < t - u then 2 ^ 63 - 1
  else t - u

/-- The function `time.Since` at clock reading `now`. -/
def timeSince (now t : Int) : Int := timeSub now t

/-- The conversion `time.Duration(x)` of a `float64`: the fraction is
discarded; outside the `int64` range Go leaves the result to the platform, and
this is what amd64 gives. -/
def durationOfFloat (x : ℚ) : Int :=
  let n := Int.tdiv x.num x.den
  if -(2 ^ 63) ≤ n ∧ n < 2 ^ 63 then n else -(2 ^ 63)

/-! ## Maps -/

/-- The index expression `m[k]`: the nil interface when `k` is absent. -/
def mapGet (m : GoMap) (k : String) : GoVal := (m.lookup k).getD GoVal.null

/-- The assignment `m[k] = v`. -/
def mapSet : GoMap → String → GoVal → GoMap
  | [], k, v => [(k, v)]
  | (k', v') :: rest, k, v =>
    if k' = k then (k, v) :: rest else (k', v') :: mapSet rest k v

/-- The function `copyMap` of `sign.go`. -/
def copyMap (input : GoMap) (predicate : String → Bool) : GoMap :=
  input.foldl
    (fun copied kv => if predicate kv.1 then mapSet copied kv.1 kv.2 else copied) []

/-! ## encoding/json -/

/-- The order in which `encoding/json` writes the keys of a map: Go compares
the UTF-8 bytes of the keys, which orders them as their code points do. -/
def keyLE (a b : String) : Prop := a.data.map Char.toNat ≤ b.data.map Char.toNat

instance (a b : String) : Decidable (keyLE a b) := by
  unfold keyLE; infer_instance

/-- The keys of a map in the order `encoding/json` writes them. -/
def sortedKeys (m : List String) : List String := List.insertionSort keyLE m

/-- Elements separated by commas. -/
def joinComma : List Bytes → Bytes
  | [] => []
  | [b] => b
  | b :: c :: rest => b ++ 44 :: joinComma (c :: rest)

/-- All the parts, when none failed. -/
def allSome : List (Option Bytes) → Option (List Bytes)
  | [] => some []
  | none :: _ => none
  | some b :: rest => (allSome rest).map (fun bs => b :: bs)

mutual
/-- The function `json.Marshal` on a `GoVal`, given the encoding `ms` of a
`*Signature`: no white space, keys of an object in sorted order, `none` when
some value cannot be encoded. -/
def marshalVal (L : Lib) (ms : Signature → Option Bytes) : GoVal → Option Bytes
  | .null => some [110, 117, 108, 108]
  | .bool true => some [116, 114, 117, 101]
  | .bool false => some [102, 97, 108, 115, 101]
  | .num x => some (L.jsonNumber x)
  | .str s => some (L.jsonString s)
  | .arr xs =>
    (allSome (marshalList L ms xs)).map (fun parts => 91 :: joinComma parts ++ [93])
  | .obj m =>
    let encs := marshalEntries L ms m
    (allSome (encs.map Prod.snd)).map (fun _ =>
      123 :: joinComma ((sortedKeys (m.map Prod.fst)).map (fun k =>
        L.jsonString k ++ 58 :: ((encs.lookup k).getD none).getD [])) ++ [125])
  | .sig s => ms s
  | .unsupported => none
/-- The encodings of the elements of an array. -/
def marshalList (L : Lib) (ms : Signature → Option Bytes) : List GoVal → List (Option Bytes)
  | [] => []
  | v :: vs => marshalVal L ms v :: marshalList L ms vs
/-- The encodings of the values of a map, by key. -/
def marshalEntries (L : Lib) (ms : Signature → Option Bytes) :
    List (String × GoVal) → List (String × Option Bytes)
  | [] => []
  | (k, v) :: rest => (k, marshalVal L ms v) :: marshalEntries L ms rest
end

/-! ## sign.go -/

/-- The map `sig` that `MarshalJSON` builds, `none` when `asn1.Marshal` fails. -/
def wireObject (L : Lib) (s : Signature) : Option GoMap :=
  match L.asn1Marshal s.PublicKey with
  | none => none
  | some keyBytes =>
    let sig : GoMap :=
      [("digest", .arr [.str "SHA1", .str (L.b64encode (s.messageDigest.getD []))]),
       ("key", .arr [.str "RSA", .str (L.b64encode keyBytes)])]
    let sig : GoMap :=
      match s.Date with
      | some date =>
        let sig := mapSet sig "date" (.str (L.formatRFC3339 date))
        match s.Expiration with
        | some expiration =>
          mapSet sig "expires" (.num ((Int.tdiv (timeSub expiration date) Minute : Int) : ℚ))
        | none => sig
      | none => sig
    let sig : GoMap :=
      match s.signatureBytes with
      | some signatureBytes => mapSet sig "sig" (.str (L.b64encode signatureBytes))
      | none => sig
    some sig

/-- The method `Signature.MarshalJSON`; `none` is an error. -/
def MarshalJSON (L : Lib) (s : Signature) : Option Bytes :=
  match wireObject L s with
  | none => none
  | some sig => marshalVal L (fun _ => none) (.obj sig)

/-- The function `json.Marshal`, which encodes a `*Signature` through its
`MarshalJSON`. -/
def Marshal (L : Lib) (v : GoVal) : Option Bytes := marshalVal L (MarshalJSON L) v

/-- The predicate `canonicalDigest` hands to `copyMap`. -/
def messageKey (key : String) : Bool :=
  (key.length == 0 || key == "_id" || key.data.head? != some '_') && key != "(signed)"

/-- The map `edited` of `canonicalDigest`: what is serialized. -/
def edited (jsonObject : GoMap) : GoMap := copyMap jsonObject messageKey

/-- The bytes `canon` of `canonicalDigest`: the error of `json.Marshal` is
dropped, and `canon` is then `nil`. -/
def canon (L : Lib) (jsonObject : GoMap) : Bytes :=
  (Marshal L (.obj (edited jsonObject))).getD []

/-- The function `canonicalDigest` of `sign.go`. -/
def canonicalDigest (L : Lib) (jsonObject : GoMap) : Bytes :=
  L.sha1 (canon L jsonObject)

/-- The signature `CreateSignature` fills in before it signs. -/
def unsignedSignature (L : Lib) (now : Int) (message : GoMap) (key : RSAPrivateKey)
    (includeDate : Bool) (expiration : Int) : Signature :=
  { PublicKey := key.PublicKey
    Date := if includeDate then some now else none
    Expiration := if includeDate && decide (expiration > 0) then some (now + expiration) else none
    messageDigest := some (canonicalDigest L message)
    signatureBytes := none }

/-- The function `CreateSignature` of `sign.go`, at clock reading `now`. -/
def CreateSignature (L : Lib) (now : Int) (message : GoMap) (key : RSAPrivateKey)
    (includeDate : Bool) (expiration : Int) : Except Error Signature :=
  let signature := unsignedSignature L now message key includeDate expiration
  match MarshalJSON L signature with
  | none => .error .jsonErr
  | some sigJson =>
    let digest := L.sha1 sigJson
    match L.rsaSign key digest with
    | none => .error .rsaErr
    | some signatureBytes => .ok { signature with signatureBytes := some signatureBytes }

/-- The function `AddSignature` of `sign.go`: the message afterwards and the
error returned. -/
def AddSignature (L : Lib) (now : Int) (message : GoMap) (key : RSAPrivateKey)
    (includeDate : Bool) (expiration : Int) : GoMap × Option Error :=
  match CreateSignature L now message key includeDate expiration with
  | .ok sig => (mapSet message "(signed)" (.sig sig), none)
  | .error err => (message, some err)

/-! ## verify.go -/

/-- The type assertion `v.(string)` with the comma-ok form. -/
def asString : GoVal → Option String
  | .str s => some s
  | _ => none

/-- The function `getTypedData` of `verify.go`; `none` is a `nil` slice. -/
def getTypedData (L : Lib) (value : GoVal) (requiredType : String) : Run (Option Bytes) :=
  match value with
  | .arr (a0 :: a1 :: _) =>
    if (asString a0).getD "" ≠ requiredType then .ret none
    else
      match asString a1 with
      | none => .ret none
      | some encoded =>
        match L.b64decode encoded with
        | none => .ret none
        | some bytes => .ret (some bytes)
  | _ => .exit

/-- The date and expiration part of `ParseSignature`. -/
def parseTimes (L : Lib) (now : Int) (sigProp : GoMap) (signature : Signature) :
    Except Error Signature :=
  match mapGet sigProp "date" with
  | .str dateStr =>
    match L.parseRFC3339 dateStr with
    | none => .error .TimeErr
    | some date =>
      if timeSince now date < -Second then .error .TimeErr
      else
        match mapGet sigProp "expires" with
        | .num expiresIn =>
          if expiresIn < 0 then .error .TimeErr
          else
            .ok { signature with
                  Date := some date
                  Expiration := some (date + wrap64 (durationOfFloat expiresIn * Minute)) }
        | _ => .ok { signature with Date := some date }
  | _ => .ok signature

/-- The function `ParseSignature` of `verify.go`, at clock reading `now`. -/
def ParseSignature (L : Lib) (now : Int) (input : GoVal) : Run (Except Error Signature) :=
  match input with
  | .null => .ret (.error .NoSignatureErr)
  | .obj sigProp =>
    match getTypedData L (mapGet sigProp "key") "RSA" with
    | .exit => .exit
    | .panic => .panic
    | .ret none => .ret (.error .StructureErr)
    | .ret (some keyBytes) =>
      match L.asn1Unmarshal keyBytes with
      | none => .ret (.error .StructureErr)
      | some publicKey =>
        match getTypedData L (mapGet sigProp "digest") "SHA1" with
        | .exit => .exit
        | .panic => .panic
        | .ret none => .ret (.error .StructureErr)
        | .ret (some messageDigest) =>
          match mapGet sigProp "sig" with
          | .str sigStr =>
            match L.b64decode sigStr with
            | none => .ret (.error .StructureErr)
            | some signatureBytes =>
              let unsigned := copyMap sigProp (fun key => key != "sig")
              let sigDigest := canonicalDigest L unsigned
              if L.rsaVerify publicKey sigDigest signatureBytes = false then
                .ret (.error .VerifyErr)
              else
                .ret (parseTimes L now sigProp
                  { PublicKey := publicKey
                    Date := none
                    Expiration := none
                    messageDigest := some messageDigest
                    signatureBytes := some signatureBytes })
          | _ => .panic
  | _ => .ret (.error .StructureErr)

/-- The function `GetSignature` of `verify.go`. -/
def GetSignature (L : Lib) (now : Int) (body : GoMap) : Run (Except Error Signature) :=
  ParseSignature L now (mapGet body "(signed)")

/-- The method `StillValid`, on a receiver that may be `nil`. -/
def StillValid (now : Int) (s : Option Signature) : Bool :=
  match s with
  | none => false
  | some sig =>
    match sig.Expiration with
    | none => true
    | some expiration => decide (timeSince now expiration < 0)

/-- The method `VerifyMessage`, on a receiver that may be `nil`. -/
def VerifyMessage (L : Lib) (now : Int) (s : Option Signature) (message : GoMap) : Bool :=
  StillValid now s &&
    (match s with
     | none => false
     | some sig => decide (sig.messageDigest = some (canonicalDigest L message)))

/-! ## A small library instance, for evaluating the code on concrete inputs -/

/-- An instance of `Lib` small enough to evaluate: the digest is the message
itself, a signature is the private exponent followed by the digest, the key
pair matches when the exponent equals the modulus, base64 text is the bytes
as characters (an exclamation mark is not in the alphabet), and a time stamp
is the count of seconds in decimal. -/
def toyLib : Lib where
  sha1 := fun b => b
  rsaSign := fun k d => some (k.D.toNat :: d)
  rsaVerify := fun pk d sg => decide (sg = pk.N.toNat :: d)
  asn1Marshal := fun pk => some [pk.N.toNat, pk.E.toNat]
  asn1Unmarshal := fun b =>
    match b with
    | [n, e] => some { N := (n : Int), E := (e : Int) }
    | _ => none
  b64encode := fun b => String.mk (b.map Char.ofNat)
  b64decode := fun s => if '!' ∈ s.data then none else some (s.data.map Char.toNat)
  jsonString := fun s => 34 :: s.data.map Char.toNat ++ [34]
  jsonNumber := fun x => [x.num.toNat, x.den]
  formatRFC3339 := fun t => String.mk (Nat.toDigits 10 (t / Second).toNat)
  parseRFC3339 := fun s =>
    if s.data.all Char.isDigit && !s.data.isEmpty then
      some ((s.data.foldl (fun acc c => acc * 10 + (c.toNat - 48)) 0 : Nat) * Second)
    else none

/-- A key pair of `toyLib`. -/
def toyKey : RSAPrivateKey := { PublicKey := { N := 7, E := 3 }, D := 7 }

/-- The document of the scenario in the specification. -/
def aliceDoc : GoMap := [("_id", .str "p1"), ("name", .str "Alice")]

/-- A document with ignored keys, a nested object and a signature entry. -/
def personDoc : GoMap :=
  [("_id", .str "person-0234"), ("_rev", .str "3-9c44"),
   ("(signed)", .obj [("sig", .str "FUDG")]),
   ("first", .str "Jens"),
   ("_attachments", .obj [("picture", .obj [("revpos", .num 3)])]),
   ("attachment_digests", .obj [("_picture", .str "8s7z")])]

/-- The document `personDoc` after a change of its ignored keys only. -/
def personDocEdited : GoMap :=
  [("first", .str "Jens"), ("_local", .bool true), ("_rev", .str "4-0000"),
   ("attachment_digests", .obj [("_picture", .str "8s7z")]),
   ("_id", .str "person-0234")]


deriving instance DecidableEq for Except

/-- A clock reading: 2023-11-14T22:13:20.5Z. -/
def t0 : Int := 1700000000500000000

/-- The signature of `aliceDoc` made by `toyKey` with no time stamp. -/
def aliceSig : Option Signature :=
  match CreateSignature toyLib t0 aliceDoc toyKey false 0 with
  | .ok s => some s
  | .error _ => none

/-- The wire form of `aliceSig`, decoded. -/
def aliceWire : GoMap := (aliceSig.bind (wireObject toyLib)).getD []

/-- The wire form of the signature of `aliceDoc` before it is signed. -/
def aliceUnsignedWire : GoMap :=
  (wireObject toyLib (unsignedSignature toyLib t0 aliceDoc toyKey false 0)).getD []

/-- A document and the same document after changes to ignored keys only. -/
def aliceDocTouched : GoMap :=
  [("name", .str "Alice"), ("_rev", .str "2-77"), ("(signed)", .obj aliceWire),
   ("_id", .str "p1")]

/-- The wire object `aliceWire` with a signature that is not the signer's and a
date far in the future. -/
def aliceForgedWire : GoMap :=
  mapSet (mapSet aliceWire "sig" (.str "bad")) "date" (.str "9999999999")

/-- A signature object whose key carries the tag "DSA". -/
def dsaWire : GoMap :=
  [("key", .arr [.str "DSA", .str "x"]), ("digest", .arr [.str "SHA1", .str "x"])]

/-- The entries of the map that `MarshalJSON` builds, other than "sig", listed
in the order in which they are set; `keyBytes` is the encoded public key. -/
def wireList (L : Lib) (s : Signature) (keyBytes : Bytes) : GoMap :=
  [("digest", .arr [.str "SHA1", .str (L.b64encode (s.messageDigest.getD []))]),
   ("key", .arr [.str "RSA", .str (L.b64encode keyBytes)])] ++
  (match s.Date with
   | some date =>
     ("date", GoVal.str (L.formatRFC3339 date)) ::
       (match s.Expiration with
        | some expiration =>
          [("expires", GoVal.num ((Int.tdiv (timeSub expiration date) Minute : Int) : ℚ))]
        | none => [])
   | none => [])

/-- The "sig" entry of the map that `MarshalJSON` builds, when there is one. -/
def wireSig (L : Lib) (s : Signature) : GoMap :=
  match s.signatureBytes with
  | some signatureBytes => [("sig", .str (L.b64encode signatureBytes))]
  | none => []

/-- The signature in a result of `CreateSignature`, or `d` when it failed. -/
def createdOr (r : Except Error Signature) (d : Signature) : Signature :=
  match r with
  | .ok s => s
  | .error _ => d

/-- The signature of `aliceDoc` made at `t0` with a validity of `validity`. -/
def datedSig (validity : Int) : Signature :=
  createdOr (CreateSignature toyLib t0 aliceDoc toyKey true validity)
    (unsignedSignature toyLib t0 aliceDoc toyKey true validity)

/-- The wire form of `datedSig validity`, decoded. -/
def datedWire (validity : Int) : GoMap := (wireObject toyLib (datedSig validity)).getD []

/-- What `ParseSignature` makes at `t0` of `datedWire validity`. -/
def datedParsed (validity : Int) : Option Signature :=
  match ParseSignature toyLib t0 (.obj (datedWire validity)) with
  | .ret (.ok s) => some s
  | _ => none

/-- A document that holds a value `json.Marshal` rejects. -/
def feedDoc : GoMap := [("feed", .unsupported), ("name", .str "Alice")]

/-- The document `feedDoc` with another name. -/
def feedDocBob : GoMap := [("feed", .unsupported), ("name", .str "Bob")]

/-- The signature of `feedDoc` made by `toyKey` with no time stamp. -/
def feedSig : Option Signature :=
  match CreateSignature toyLib t0 feedDoc toyKey false 0 with
  | .ok s => some s
  | .error _ => none

/-- The document `aliceDoc` with another name. -/
def bobDoc : GoMap := [("_id", .str "p1"), ("name", .str "Bob")]

/-- The object `w` with the "sig" entry that `toyKey` makes for it under the
library `L`. -/
def toySign (L : Lib) (w : GoMap) : GoMap :=
  mapSet w "sig" (.str (L.b64encode ((L.rsaSign toyKey (canonicalDigest L w)).getD [])))

/-- A signed signature object of `aliceDoc` whose "date" is the value `date`. -/
def datedObject (date : GoVal) : GoMap :=
  toySign toyLib (mapSet aliceUnsignedWire "date" date)

/-- The library `toyLib` with numbers written in decimal digits. -/
def digitLib : Lib :=
  { toyLib with jsonNumber := fun x => (Nat.toDigits 10 x.num.toNat).map Char.toNat }

/-- A signed signature object of `aliceDoc` with a date and an "expires" of
200000000 minutes. -/
def bigExpiresWire : GoMap :=
  toySign digitLib
    (mapSet (mapSet aliceUnsignedWire "date" (.str "1700000000")) "expires" (.num 200000000))

/-! ## Maps: lookups -/

theorem lookup_cons_ne {α : Type} (rest : List (String × α)) (a k : String) (b : α)
    (h : k ≠ a) : ((a, b) :: rest).lookup k = rest.lookup k := by
  have hb : (k == a) = false := by simpa using h
  simp [List.lookup_cons, hb]

theorem lookup_mapSet (m : GoMap) (k : String) (v : GoVal) (k' : String) :
    (mapSet m k v).lookup k' = if k' = k then some v else m.lookup k' := by
  induction m with
  | nil =>
    by_cases h2 : k' = k
    · subst h2; simp [mapSet]
    · simp [mapSet, lookup_cons_ne _ _ _ _ h2, h2]
  | cons p rest ih =>
    obtain ⟨a, b⟩ := p
    unfold mapSet
    by_cases h : a = k
    · subst h
      by_cases h2 : k' = a
      · subst h2; simp
      · simp [lookup_cons_ne _ _ _ _ h2, h2]
    · by_cases h2 : k' = k
      · subst h2
        have h3 : k' ≠ a := fun e => h e.symm
        simp [h, lookup_cons_ne _ _ _ _ h3, ih]
      · by_cases h3 : k' = a
        · subst h3; simp [h, h2]
        · simp [h, lookup_cons_ne _ _ _ _ h3, h2, ih]

theorem keys_mapSet_of_not_mem (m : GoMap) (k : String) (v : GoVal)
    (h : k ∉ m.map Prod.fst) : mapSet m k v = m ++ [(k, v)] := by
  induction m with
  | nil => rfl
  | cons p rest ih =>
    obtain ⟨a, b⟩ := p
    simp only [List.map_cons, List.mem_cons, not_or] at h
    have ha : ¬ a = k := fun e => h.1 e.symm
    simp [mapSet, ha, ih h.2]

theorem foldl_copy_eq (p : String → Bool) (m acc : GoMap)
    (hm : NodupKeys m) (hd : ∀ k ∈ m.map Prod.fst, k ∉ acc.map Prod.fst) :
    m.foldl (fun copied kv => if p kv.1 then mapSet copied kv.1 kv.2 else copied) acc
      = acc ++ m.filter (fun kv => p kv.1) := by
  induction m generalizing acc with
  | nil => simp
  | cons q rest ih =>
    obtain ⟨a, b⟩ := q
    have hn : a ∉ rest.map Prod.fst ∧ NodupKeys rest := by
      simpa [NodupKeys] using hm
    simp only [List.foldl_cons]
    by_cases hp : p a = true
    · have hacc : a ∉ acc.map Prod.fst := hd a (by simp)
      rw [if_pos hp, keys_mapSet_of_not_mem acc a b hacc, ih _ hn.2]
      · simp [List.filter_cons, hp]
      · intro k hk
        simp only [List.map_append, List.map_cons, List.map_nil, List.mem_append,
          List.mem_singleton, not_or]
        refine ⟨hd k (by simp [List.mem_cons, hk] ), ?_⟩
        rintro rfl
        exact hn.1 hk
    · rw [if_neg hp, ih _ hn.2]
      · simp [List.filter_cons, hp]
      · intro k hk
        exact hd k (by simp [List.mem_cons, hk])

theorem copyMap_eq_filter (m : GoMap) (p : String → Bool) (hm : NodupKeys m) :
    copyMap m p = m.filter (fun kv => p kv.1) := by
  unfold copyMap
  rw [foldl_copy_eq p m [] hm (by simp)]
  simp

theorem lookup_filter_key (m : GoMap) (p : String → Bool) (k : String) :
    (m.filter (fun kv => p kv.1)).lookup k = if p k = true then m.lookup k else none := by
  induction m with
  | nil => simp
  | cons q rest ih =>
    obtain ⟨a, b⟩ := q
    by_cases hp : p a = true
    · by_cases hk : k = a
      · subst hk; simp [List.filter_cons, hp]
      · simp [List.filter_cons, hp, lookup_cons_ne _ _ _ _ hk, ih]
    · by_cases hk : k = a
      · subst hk; simp [List.filter_cons, hp, ih]
      · simp [List.filter_cons, hp, lookup_cons_ne _ _ _ _ hk, ih]

theorem lookup_copyMap (m : GoMap) (p : String → Bool) (hm : NodupKeys m) (k : String) :
    (copyMap m p).lookup k = if p k = true then m.lookup k else none := by
  rw [copyMap_eq_filter m p hm, lookup_filter_key]

theorem nodupKeys_copyMap (m : GoMap) (p : String → Bool) (hm : NodupKeys m) :
    NodupKeys (copyMap m p) := by
  rw [copyMap_eq_filter m p hm]
  exact List.Nodup.sublist (List.Sublist.map _ (List.filter_sublist _)) hm

theorem mem_iff_lookup (m : GoMap) (hm : NodupKeys m) (k : String) (v : GoVal) :
    (k, v) ∈ m ↔ m.lookup k = some v := by
  induction m with
  | nil => simp
  | cons q rest ih =>
    obtain ⟨a, b⟩ := q
    have hn : a ∉ rest.map Prod.fst ∧ NodupKeys rest := by
      simpa [NodupKeys] using hm
    by_cases hk : k = a
    · subst hk
      simp only [List.mem_cons, Prod.mk.injEq, true_and, List.lookup_cons_self,
        Option.some.injEq]
      constructor
      · rintro (h | h)
        · exact h.symm
        · exact absurd (List.mem_map_of_mem Prod.fst h) hn.1
      · intro h; exact Or.inl h.symm
    · simp [lookup_cons_ne _ _ _ _ hk, hk, ih hn.2]

theorem mem_keys_iff_lookup (m : GoMap) (k : String) :
    k ∈ m.map Prod.fst ↔ m.lookup k ≠ none := by
  induction m with
  | nil => simp
  | cons q rest ih =>
    obtain ⟨a, b⟩ := q
    by_cases hk : k = a
    · subst hk; simp
    · simp only [List.map_cons, List.mem_cons, hk, false_or, lookup_cons_ne _ _ _ _ hk]
      exact ih

/-! ## encoding/json: the output depends on the entries only -/

theorem keyLE_data_inj (a b : String)
    (h : a.data.map Char.toNat = b.data.map Char.toNat) : a = b := by
  have hinj : Function.Injective Char.toNat := by
    intro x y hxy
    have := congrArg Char.ofNat hxy
    simpa using this
  have hd : a.data = b.data := List.map_injective_iff.2 hinj h
  cases a; cases b; simp_all

instance : IsTotal String keyLE := ⟨fun a _ => le_total (a.data.map Char.toNat) _⟩

instance : IsTrans String keyLE := ⟨fun _ _ _ h1 h2 => @le_trans (List Nat) _ _ _ _ h1 h2⟩

instance : IsAntisymm String keyLE :=
  ⟨fun a b h1 h2 => keyLE_data_inj a b (@le_antisymm (List Nat) _ _ _ h1 h2)⟩

theorem sortedKeys_perm (l l' : List String) (h : l.Perm l') :
    sortedKeys l = sortedKeys l' := by
  unfold sortedKeys
  apply @List.eq_of_perm_of_sorted String keyLE
  · exact ((List.perm_insertionSort keyLE l).trans h).trans (List.perm_insertionSort keyLE l').symm
  · exact List.sorted_insertionSort keyLE l
  · exact List.sorted_insertionSort keyLE l'

theorem marshalEntries_eq_map (L : Lib) (ms : Signature → Option Bytes) (m : GoMap) :
    marshalEntries L ms m = m.map (fun kv => (kv.1, marshalVal L ms kv.2)) := by
  induction m with
  | nil => simp [marshalEntries]
  | cons q rest ih =>
    obtain ⟨a, _⟩ := q
    simp [marshalEntries, ih]

theorem lookup_map_value {α β : Type} (f : α → β) (m : List (String × α)) (k : String) :
    (m.map (fun kv => (kv.1, f kv.2))).lookup k = (m.lookup k).map f := by
  induction m with
  | nil => simp
  | cons q rest ih =>
    obtain ⟨a, b⟩ := q
    by_cases hk : k = a
    · subst hk; simp
    · simp [lookup_cons_ne _ _ _ _ hk, ih]

theorem allSome_isSome_iff (l : List (Option Bytes)) :
    (allSome l).isSome = true ↔ ∀ x ∈ l, x.isSome = true := by
  induction l with
  | nil => simp [allSome]
  | cons x rest ih =>
    cases x with
    | none => simp [allSome]
    | some b =>
      simp only [allSome, Option.isSome_map, List.mem_cons, forall_eq_or_imp,
        Option.isSome_some, true_and]
      simpa using ih

theorem map_const_congr {α β : Type} (o o' : Option α) (c : β)
    (h : o.isSome = o'.isSome) : o.map (fun _ => c) = o'.map (fun _ => c) := by
  cases o <;> cases o' <;> simp_all

theorem perm_of_lookup_eq (m m' : GoMap) (hm : NodupKeys m) (hm' : NodupKeys m')
    (h : ∀ k, m.lookup k = m'.lookup k) : m.Perm m' := by
  classical
  rw [List.perm_ext_iff_of_nodup (List.Nodup.of_map _ hm) (List.Nodup.of_map _ hm')]
  rintro ⟨k, v⟩
  rw [mem_iff_lookup m hm, mem_iff_lookup m' hm', h k]

theorem lookup_eq_of_perm (m m' : GoMap) (hm : NodupKeys m) (h : m.Perm m') (k : String) :
    m.lookup k = m'.lookup k := by
  have hm' : NodupKeys m' := (List.Perm.nodup_iff (h.map Prod.fst)).1 hm
  cases hv : m'.lookup k with
  | some v =>
    rw [← mem_iff_lookup m' hm'] at hv
    exact (mem_iff_lookup m hm k v).1 (h.mem_iff.2 hv)
  | none =>
    cases hw : m.lookup k with
    | none => rfl
    | some w =>
      rw [← mem_iff_lookup m hm] at hw
      have := (mem_iff_lookup m' hm' k w).1 (h.mem_iff.1 hw)
      rw [hv] at this; cases this

/-- Two maps with the same entries have the same encoding, whatever the order
in which the entries are listed. -/
theorem marshalVal_obj_congr (L : Lib) (ms : Signature → Option Bytes) (m m' : GoMap)
    (hm : NodupKeys m) (hm' : NodupKeys m') (h : ∀ k, m.lookup k = m'.lookup k) :
    marshalVal L ms (.obj m) = marshalVal L ms (.obj m') := by
  have hp : m.Perm m' := perm_of_lookup_eq m m' hm hm' h
  simp only [marshalVal, marshalEntries_eq_map, lookup_map_value, h]
  rw [sortedKeys_perm _ _ (hp.map Prod.fst)]
  apply map_const_congr
  rw [Bool.eq_iff_iff, allSome_isSome_iff, allSome_isSome_iff]
  constructor
  · intro hx x hmem; exact hx x ((hp.map _).map _ |>.mem_iff.2 hmem)
  · intro hx x hmem; exact hx x ((hp.map _).map _ |>.mem_iff.1 hmem)

/-! ## The message filter -/

theorem messageKey_iff (k : String) :
    messageKey k = true ↔ ¬ (k = "(signed)" ∨ (k.data.head? = some '_' ∧ k ≠ "_id")) := by
  unfold messageKey
  have hlen : k.length = 0 → k.data.head? ≠ some '_' := by
    intro h
    have : k.data = [] := List.length_eq_zero.1 h
    simp [this]
  by_cases h1 : k = "(signed)"
  · subst h1; decide
  · by_cases h2 : k.data.head? = some '_'
    · by_cases h3 : k = "_id"
      · subst h3; decide
      · have h4 : k.length ≠ 0 := fun h => hlen h h2
        simp [h1, h2, h3, h4]
    · simp [h1, h2]

theorem lookup_edited (D : GoMap) (hD : NodupKeys D) (k : String) :
    (edited D).lookup k = if messageKey k = true then D.lookup k else none :=
  lookup_copyMap D messageKey hD k

theorem nodupKeys_edited (D : GoMap) (hD : NodupKeys D) : NodupKeys (edited D) :=
  nodupKeys_copyMap D messageKey hD

theorem canon_congr (L : Lib) (D D' : GoMap) (hD : NodupKeys D) (hD' : NodupKeys D')
    (h : ∀ k, messageKey k = true → D.lookup k = D'.lookup k) :
    canon L D = canon L D' := by
  unfold canon Marshal
  rw [marshalVal_obj_congr L _ (edited D) (edited D') (nodupKeys_edited D hD)
    (nodupKeys_edited D' hD')]
  intro k
  rw [lookup_edited D hD, lookup_edited D' hD']
  by_cases hk : messageKey k = true
  · simp [hk, h k hk]
  · simp [hk]


/-! ## ParseSignature, step by step -/

theorem parseTimes_ne_verifyErr (L : Lib) (now : Int) (sigProp : GoMap) (sg : Signature) :
    parseTimes L now sigProp sg ≠ .error .VerifyErr := by
  unfold parseTimes
  repeat' split
  all_goals simp

theorem parseTimes_ne_structureErr (L : Lib) (now : Int) (sigProp : GoMap) (sg : Signature) :
    parseTimes L now sigProp sg ≠ .error .StructureErr := by
  unfold parseTimes
  repeat' split
  all_goals simp

/-- What `ParseSignature` does with an object that passes the structure checks. -/
theorem ParseSignature_of_structure (L : Lib) (now : Int) (sigProp : GoMap)
    (keyBytes : Bytes) (publicKey : RSAPublicKey) (messageDigest : Bytes) (sigStr : String)
    (signatureBytes : Bytes)
    (hkey : getTypedData L (mapGet sigProp "key") "RSA" = .ret (some keyBytes))
    (hpk : L.asn1Unmarshal keyBytes = some publicKey)
    (hdig : getTypedData L (mapGet sigProp "digest") "SHA1" = .ret (some messageDigest))
    (hsig : mapGet sigProp "sig" = .str sigStr)
    (hsb : L.b64decode sigStr = some signatureBytes) :
    ParseSignature L now (.obj sigProp) =
      if L.rsaVerify publicKey
          (canonicalDigest L (copyMap sigProp (fun key => key != "sig"))) signatureBytes = false
      then .ret (.error .VerifyErr)
      else .ret (parseTimes L now sigProp
        { PublicKey := publicKey
          Date := none
          Expiration := none
          messageDigest := some messageDigest
          signatureBytes := some signatureBytes }) := by
  simp only [ParseSignature, hkey, hpk, hdig, hsig, hsb]

/-- An object on which `ParseSignature` returns an error other than
`StructureErr` passed the structure checks. -/
theorem structure_of_ParseSignature (L : Lib) (now : Int) (input : GoVal) (r : Except Error Signature)
    (h : ParseSignature L now input = .ret r)
    (hr : r ≠ .error .StructureErr) (hn : r ≠ .error .NoSignatureErr) :
    ∃ sigProp keyBytes publicKey messageDigest sigStr signatureBytes,
      input = .obj sigProp ∧
      getTypedData L (mapGet sigProp "key") "RSA" = .ret (some keyBytes) ∧
      L.asn1Unmarshal keyBytes = some publicKey ∧
      getTypedData L (mapGet sigProp "digest") "SHA1" = .ret (some messageDigest) ∧
      mapGet sigProp "sig" = .str sigStr ∧
      L.b64decode sigStr = some signatureBytes := by
  unfold ParseSignature at h
  split at h
  · cases h; exact absurd rfl hn
  · rename_i sigProp
    split at h
    · cases h
    · cases h
    · cases h; exact absurd rfl hr
    · rename_i keyBytes hkey
      split at h
      · cases h; exact absurd rfl hr
      · rename_i publicKey hpk
        split at h
        · cases h
        · cases h
        · cases h; exact absurd rfl hr
        · rename_i messageDigest hdig
          split at h
          · rename_i sigStr hsig
            split at h
            · cases h; exact absurd rfl hr
            · rename_i signatureBytes hsb
              exact ⟨sigProp, keyBytes, publicKey, messageDigest, sigStr, signatureBytes,
                rfl, hkey, hpk, hdig, hsig, hsb⟩
          · cases h
  · cases h; exact absurd rfl hr

theorem asString_getD_eq_iff (a : GoVal) (ty : String) (hty : ty ≠ "") :
    (asString a).getD "" = ty ↔ a = .str ty := by
  cases a <;> simp [asString, hty, Ne.symm hty]

/-- On a two-element array `getTypedData` returns. -/
theorem getTypedData_pair (L : Lib) (a0 a1 : GoVal) (ty : String) :
    getTypedData L (.arr [a0, a1]) ty =
      .ret (if (asString a0).getD "" ≠ ty then none else (asString a1).bind L.b64decode) := by
  unfold getTypedData
  by_cases h : (asString a0).getD "" = ty
  · simp only [h, ne_eq, not_true_eq_false, if_false]
    cases h1 : asString a1 with
    | none => simp
    | some e =>
      cases h2 : L.b64decode e <;> simp [h2]
  · simp [h]

/-- Anything but an array of two or more elements ends the process. -/
theorem getTypedData_exit (L : Lib) (value : GoVal) (ty : String)
    (h : ∀ a0 a1 rest, value ≠ .arr (a0 :: a1 :: rest)) :
    getTypedData L value ty = .exit := by
  unfold getTypedData
  split
  · rename_i a0 a1 rest
    exact absurd rfl (h a0 a1 rest)
  · rfl

/-! ## The wire object -/

theorem wireObject_eq (L : Lib) (s : Signature) :
    wireObject L s =
      (L.asn1Marshal s.PublicKey).map (fun keyBytes => wireList L s keyBytes ++ wireSig L s) := by
  unfold wireObject wireList wireSig
  cases L.asn1Marshal s.PublicKey with
  | none => rfl
  | some kb =>
    cases s.Date <;> cases s.Expiration <;> cases s.signatureBytes <;> simp [mapSet]

theorem wireList_keys (L : Lib) (s : Signature) (kb : Bytes) :
    ∀ k ∈ (wireList L s kb).map Prod.fst, messageKey k = true ∧ k ≠ "sig" := by
  unfold wireList
  cases s.Date <;> cases s.Expiration <;> simp <;> decide

theorem wireList_nodup (L : Lib) (s : Signature) (kb : Bytes) (sv : GoVal) :
    NodupKeys (wireList L s kb ++ [("sig", sv)]) := by
  unfold wireList NodupKeys
  cases s.Date <;> cases s.Expiration <;> simp

theorem wireList_marshal (L : Lib) (s : Signature) (kb : Bytes)
    (ms ms' : Signature → Option Bytes) :
    marshalVal L ms (.obj (wireList L s kb)) = marshalVal L ms' (.obj (wireList L s kb)) := by
  unfold wireList
  cases s.Date <;> cases s.Expiration <;>
    simp [marshalVal, marshalEntries, marshalList]

theorem nodupKeys_of_append_left (m m' : GoMap) (h : NodupKeys (m ++ m')) : NodupKeys m := by
  unfold NodupKeys at h ⊢
  rw [List.map_append] at h
  exact (List.nodup_append.1 h).1

/-- The verifier serializes what the signer serialized: the decoded wire
object, once "sig" is removed and the message filter applied, has the entries
of the object without "sig". -/
theorem selfDigest_marshal (L : Lib) (ms : Signature → Option Bytes) (w0 decoded : GoMap)
    (sv : GoVal) (hnd : NodupKeys (w0 ++ [("sig", sv)]))
    (hkeys : ∀ k ∈ w0.map Prod.fst, messageKey k = true ∧ k ≠ "sig")
    (hdec : decoded.Perm (w0 ++ [("sig", sv)])) :
    marshalVal L ms (.obj (edited (copyMap decoded (fun key => key != "sig")))) =
      marshalVal L ms (.obj w0) := by
  have hdn : NodupKeys decoded := (List.Perm.nodup_iff (hdec.map Prod.fst)).2 hnd
  have hw0 : NodupKeys w0 := nodupKeys_of_append_left _ _ hnd
  apply marshalVal_obj_congr L ms _ _ (nodupKeys_edited _ (nodupKeys_copyMap _ _ hdn)) hw0
  intro k
  rw [lookup_edited _ (nodupKeys_copyMap _ _ hdn), lookup_copyMap _ _ hdn,
    lookup_eq_of_perm decoded _ hdn hdec k, List.lookup_append]
  cases hv : w0.lookup k with
  | some v =>
    have hmem : k ∈ w0.map Prod.fst := (mem_keys_iff_lookup w0 k).2 (by simp [hv])
    obtain ⟨h1, h2⟩ := hkeys k hmem
    simp [h1, h2]
  | none =>
    by_cases hs : k = "sig"
    · subst hs; simp
    · simp [lookup_cons_ne _ _ _ _ hs]

/-! ## Minutes on the wire -/

theorem timeSub_add_self (now validity : Int) (h0 : 0 ≤ validity) (h1 : validity < 2 ^ 63) :
    timeSub (now + validity) now = validity := by
  unfold timeSub
  have e : now + validity - now = validity := by ring
  rw [e]
  have a : ¬ validity < -(2 ^ 63) := by omega
  have b : ¬ (2 ^ 63 - 1 < validity) := by omega
  rw [if_neg a, if_neg b]

theorem durationOfFloat_intCast (n : Int) (h0 : -(2 ^ 63) ≤ n) (h1 : n < 2 ^ 63) :
    durationOfFloat ((n : Int) : ℚ) = n := by
  unfold durationOfFloat
  have hn : Int.tdiv ((n : Int) : ℚ).num (((n : Int) : ℚ).den : Int) = n := by simp
  simp only [hn]
  rw [if_pos ⟨h0, h1⟩]

theorem minutes_bounds (validity : Int) (h0 : Minute ≤ validity) :
    0 < Int.tdiv validity Minute ∧ Int.tdiv validity Minute * Minute ≤ validity ∧
      Minute ≤ Int.tdiv validity Minute * Minute ∧
      Int.tdiv validity Minute ≤ Int.tdiv validity Minute * Minute := by
  have hm : (0 : Int) < Minute := by decide
  have hv : 0 ≤ validity := le_trans (le_of_lt hm) h0
  rw [Int.tdiv_eq_ediv hv (le_of_lt hm)]
  have h1 : validity / Minute * Minute ≤ validity := Int.ediv_mul_le validity (ne_of_gt hm)
  have h2 : 1 ≤ validity / Minute := by
    have := Int.ediv_le_ediv hm h0
    rwa [Int.ediv_self (ne_of_gt hm)] at this
  refine ⟨by omega, h1, ?_, ?_⟩
  · calc Minute = 1 * Minute := by ring
      _ ≤ validity / Minute * Minute := Int.mul_le_mul_of_nonneg_right h2 (le_of_lt hm)
  · exact le_mul_of_one_le_right (by omega) (by decide)

theorem wrap64_of_range (x : Int) (h0 : 0 ≤ x) (h1 : x < 2 ^ 63) : wrap64 x = x := by
  unfold wrap64
  omega

theorem stillValid_after_roundtrip (now m : Int) (h0 : Minute ≤ m) (h1 : m < 2 ^ 63) :
    timeSince now (now - now % Second + m) < 0 := by
  unfold timeSince timeSub
  have hs : (0 : Int) < Second := by decide
  have r0 : 0 ≤ now % Second := Int.emod_nonneg now (ne_of_gt hs)
  have r1 : now % Second < Second := Int.emod_lt_of_pos now hs
  have hmin : Minute = 60 * Second := rfl
  have hsec : Second = 1000000000 := rfl
  split
  · omega
  · split
    · omega
    · omega

theorem date_not_future (now : Int) : ¬ timeSince now (now - now % Second) < -Second := by
  unfold timeSince timeSub
  have hs : (0 : Int) < Second := by decide
  have r0 : 0 ≤ now % Second := Int.emod_nonneg now (ne_of_gt hs)
  have r1 : now % Second < Second := Int.emod_lt_of_pos now hs
  have hsec : Second = 1000000000 := rfl
  split
  · omega
  · split
    · omega
    · omega

/-! ## Reading the wire object back -/

theorem wire_nodup (L : Lib) (s : Signature) (kb : Bytes) :
    NodupKeys (wireList L s kb ++ wireSig L s) := by
  unfold wireSig
  cases s.signatureBytes with
  | none => simpa using nodupKeys_of_append_left _ _ (wireList_nodup L s kb .null)
  | some sb => exact wireList_nodup L s kb _

theorem mapGet_perm (m m' : GoMap) (hm : NodupKeys m') (h : m.Perm m') (k : String) :
    mapGet m k = mapGet m' k := by
  unfold mapGet
  rw [lookup_eq_of_perm m' m hm h.symm k]

theorem wire_get_key (L : Lib) (s : Signature) (kb : Bytes) :
    mapGet (wireList L s kb ++ wireSig L s) "key" =
      .arr [.str "RSA", .str (L.b64encode kb)] := by
  unfold wireList wireSig mapGet
  cases s.Date <;> cases s.Expiration <;> cases s.signatureBytes <;>
    simp [List.lookup_cons]

theorem wire_get_digest (L : Lib) (s : Signature) (kb : Bytes) :
    mapGet (wireList L s kb ++ wireSig L s) "digest" =
      .arr [.str "SHA1", .str (L.b64encode (s.messageDigest.getD []))] := by
  unfold wireList wireSig mapGet
  cases s.Date <;> cases s.Expiration <;> cases s.signatureBytes <;>
    simp [List.lookup_cons]

theorem wire_get_sig (L : Lib) (s : Signature) (kb : Bytes) :
    mapGet (wireList L s kb ++ wireSig L s) "sig" =
      (match s.signatureBytes with
       | some sb => .str (L.b64encode sb)
       | none => .null) := by
  unfold wireList wireSig mapGet
  cases s.Date <;> cases s.Expiration <;> cases s.signatureBytes <;>
    simp [List.lookup_cons]

theorem wire_get_date (L : Lib) (s : Signature) (kb : Bytes) :
    mapGet (wireList L s kb ++ wireSig L s) "date" =
      (match s.Date with
       | some date => .str (L.formatRFC3339 date)
       | none => .null) := by
  unfold wireList wireSig mapGet
  cases s.Date <;> cases s.Expiration <;> cases s.signatureBytes <;>
    simp [List.lookup_cons]

theorem wire_get_expires (L : Lib) (s : Signature) (kb : Bytes) :
    mapGet (wireList L s kb ++ wireSig L s) "expires" =
      (match s.Date, s.Expiration with
       | some date, some expiration =>
         .num ((Int.tdiv (timeSub expiration date) Minute : Int) : ℚ)
       | _, _ => .null) := by
  unfold wireList wireSig mapGet
  cases s.Date <;> cases s.Expiration <;> cases s.signatureBytes <;>
    simp [List.lookup_cons]

theorem getTypedData_encoded (L : Lib) (ty : String) (b : Bytes)
    (hb : L.b64decode (L.b64encode b) = some b) :
    getTypedData L (.arr [.str ty, .str (L.b64encode b)]) ty = .ret (some b) := by
  rw [getTypedData_pair]
  simp [asString, hb]

/-- The structure checks and the self-signature check of `ParseSignature`
accept the decoded wire form of a signed signature whose self-signature the
RSA check accepts. -/
theorem ParseSignature_wire (L : Lib) (now : Int) (s : Signature) (kb md sb : Bytes)
    (decoded : GoMap)
    (hmd : s.messageDigest = some md) (hsb : s.signatureBytes = some sb)
    (hpk : L.asn1Unmarshal kb = some s.PublicKey)
    (hdec : decoded.Perm (wireList L s kb ++ wireSig L s))
    (hbk : L.b64decode (L.b64encode kb) = some kb)
    (hbm : L.b64decode (L.b64encode md) = some md)
    (hbs : L.b64decode (L.b64encode sb) = some sb)
    (hver : L.rsaVerify s.PublicKey
      (L.sha1 ((marshalVal L (fun _ => none) (.obj (wireList L s kb))).getD [])) sb = true) :
    ParseSignature L now (.obj decoded) =
      .ret (parseTimes L now decoded
        { PublicKey := s.PublicKey
          Date := none
          Expiration := none
          messageDigest := some md
          signatureBytes := some sb }) := by
  have hnd := wire_nodup L s kb
  have hsig : wireSig L s = [("sig", .str (L.b64encode sb))] := by
    unfold wireSig; rw [hsb]
  have h1 : getTypedData L (mapGet decoded "key") "RSA" = .ret (some kb) := by
    rw [mapGet_perm _ _ hnd hdec, wire_get_key]
    exact getTypedData_encoded L "RSA" kb hbk
  have h2 : getTypedData L (mapGet decoded "digest") "SHA1" = .ret (some md) := by
    rw [mapGet_perm _ _ hnd hdec, wire_get_digest, hmd]
    exact getTypedData_encoded L "SHA1" md hbm
  have h3 : mapGet decoded "sig" = .str (L.b64encode sb) := by
    rw [mapGet_perm _ _ hnd hdec, wire_get_sig, hsb]
  rw [ParseSignature_of_structure L now decoded kb s.PublicKey md (L.b64encode sb) sb
    h1 hpk h2 h3 hbs]
  have hd : canonicalDigest L (copyMap decoded (fun key => key != "sig")) =
      L.sha1 ((marshalVal L (fun _ => none) (.obj (wireList L s kb))).getD []) := by
    unfold canonicalDigest canon Marshal
    rw [hsig] at hdec hnd
    rw [selfDigest_marshal L _ (wireList L s kb) decoded _ hnd (wireList_keys L s kb) hdec,
      wireList_marshal L s kb (MarshalJSON L) (fun _ => none)]
  rw [hd, hver]
  simp

/-- What a successful `CreateSignature` did. -/
theorem CreateSignature_ok (L : Lib) (now : Int) (D : GoMap) (K : RSAPrivateKey)
    (includeDate : Bool) (validity : Int) (s : Signature)
    (h : CreateSignature L now D K includeDate validity = .ok s) :
    ∃ kb sigJson sb,
      L.asn1Marshal K.PublicKey = some kb ∧
      marshalVal L (fun _ => none)
        (.obj (wireList L (unsignedSignature L now D K includeDate validity) kb)) = some sigJson ∧
      L.rsaSign K (L.sha1 sigJson) = some sb ∧
      s = { unsignedSignature L now D K includeDate validity with signatureBytes := some sb } := by
  unfold CreateSignature at h
  cases hm : MarshalJSON L (unsignedSignature L now D K includeDate validity) with
  | none => simp [hm] at h
  | some sigJson =>
    cases hs : L.rsaSign K (L.sha1 sigJson) with
    | none => simp [hm, hs] at h
    | some sb =>
      simp only [hm, hs, Except.ok.injEq] at h
      unfold MarshalJSON at hm
      rw [wireObject_eq] at hm
      have hpk : (unsignedSignature L now D K includeDate validity).PublicKey = K.PublicKey := rfl
      rw [hpk] at hm
      cases hkb : L.asn1Marshal K.PublicKey with
      | none => simp [hkb] at hm
      | some kb =>
        have hw : wireSig L (unsignedSignature L now D K includeDate validity) = [] := rfl
        simp only [hkb, Option.map_some', hw, List.append_nil] at hm
        exact ⟨kb, sigJson, sb, rfl, hm, hs, h.symm⟩

/-! ## Sensitivity of the canonical bytes -/

theorem marshalVal_obj_ne_nil (L : Lib) (ms : Signature → Option Bytes) (m : GoMap) (b : Bytes)
    (h : marshalVal L ms (.obj m) = some b) : b ≠ [] := by
  simp only [marshalVal] at h
  cases hx : allSome ((marshalEntries L ms m).map Prod.snd) with
  | none => simp [hx] at h
  | some parts =>
    simp only [hx, Option.map_some', Option.some.injEq] at h
    rw [← h]
    simp

/-- The canonical bytes of two documents differ when the documents differ at a
key that takes part, the first is encoded, and the encoder tells the two
filtered mappings apart. -/
theorem canon_ne_of_change (L : Lib) (D D' : GoMap) (k : String)
    (hD : NodupKeys D) (hD' : NodupKeys D')
    (hk : messageKey k = true)
    (hchange : D.lookup k ≠ D'.lookup k)
    (henc : Marshal L (.obj (edited D)) ≠ none)
    (hjson : Marshal L (.obj (edited D)) = Marshal L (.obj (edited D')) →
      ∀ j, (edited D).lookup j = (edited D').lookup j) :
    canon L D ≠ canon L D' := by
  intro hc
  unfold canon at hc
  cases hb : Marshal L (.obj (edited D)) with
  | none => exact henc hb
  | some b =>
    have hbne : b ≠ [] := marshalVal_obj_ne_nil L _ _ b hb
    cases hb' : Marshal L (.obj (edited D')) with
    | none =>
      rw [hb, hb'] at hc
      exact hbne hc
    | some b' =>
      rw [hb, hb'] at hc
      have heq : b = b' := hc
      have hl := hjson (by rw [hb, hb', heq]) k
      rw [lookup_edited D hD, lookup_edited D' hD', if_pos hk, if_pos hk] at hl
      exact hchange hl

/-! ## Errors, validity and embedding -/

theorem parseTimes_ne_noSignatureErr (L : Lib) (now : Int) (sigProp : GoMap) (sg : Signature) :
    parseTimes L now sigProp sg ≠ .error .NoSignatureErr := by
  unfold parseTimes
  repeat' split
  all_goals simp

theorem timeSince_neg_iff (now t : Int) : timeSince now t < 0 ↔ now < t := by
  unfold timeSince timeSub
  split
  · constructor
    · intro _; omega
    · intro _; decide
  · split
    · constructor
      · intro h; exact absurd h (by decide)
      · intro _; omega
    · constructor <;> intro h <;> omega

theorem timeSince_lt_neg_second_iff (now t : Int) :
    timeSince now t < -Second ↔ now + Second < t := by
  unfold timeSince timeSub
  have hs : Second = 1000000000 := rfl
  split
  · constructor
    · intro _; omega
    · intro _; rw [hs]; decide
  · split
    · constructor
      · intro h; rw [hs] at h; exact absurd h (by decide)
      · intro _; omega
    · constructor <;> intro h <;> omega

theorem nodupKeys_mapSet (m : GoMap) (k : String) (v : GoVal) (hm : NodupKeys m) :
    NodupKeys (mapSet m k v) := by
  unfold NodupKeys at hm ⊢
  induction m with
  | nil => simp [mapSet]
  | cons q rest ih =>
    obtain ⟨a, b⟩ := q
    have hn : a ∉ rest.map Prod.fst ∧ (rest.map Prod.fst).Nodup := by simpa using hm
    by_cases ha : a = k
    · subst ha; simpa [mapSet] using hn
    · simp only [mapSet, ha, if_false, List.map_cons, List.nodup_cons]
      refine ⟨?_, ih hn.2⟩
      intro hmem
      rw [mem_keys_iff_lookup, lookup_mapSet] at hmem
      simp only [ha, if_false] at hmem
      exact hn.1 ((mem_keys_iff_lookup rest a).2 hmem)

/-- Setting the "(signed)" entry of a message leaves its canonical bytes as
they were. -/
theorem canon_mapSet_signed (L : Lib) (m : GoMap) (v : GoVal) (hm : NodupKeys m) :
    canon L (mapSet m "(signed)" v) = canon L m := by
  apply canon_congr L _ _ (nodupKeys_mapSet m _ v hm) hm
  intro k hk
  rw [lookup_mapSet]
  have hne : k ≠ "(signed)" := by
    rintro rfl
    exact absurd hk (by decide)
  simp [hne]

/-- What `ParseSignature` returns once the structure checks and the RSA check
have passed. -/
theorem ParseSignature_of_verified (L : Lib) (now : Int) (sigProp : GoMap)
    (keyBytes : Bytes) (publicKey : RSAPublicKey) (messageDigest : Bytes) (sigStr : String)
    (signatureBytes : Bytes)
    (hkey : getTypedData L (mapGet sigProp "key") "RSA" = .ret (some keyBytes))
    (hpk : L.asn1Unmarshal keyBytes = some publicKey)
    (hdig : getTypedData L (mapGet sigProp "digest") "SHA1" = .ret (some messageDigest))
    (hsig : mapGet sigProp "sig" = .str sigStr)
    (hsb : L.b64decode sigStr = some signatureBytes)
    (hver : L.rsaVerify publicKey
      (canonicalDigest L (copyMap sigProp (fun key => key != "sig"))) signatureBytes = true) :
    ParseSignature L now (.obj sigProp) =
      .ret (parseTimes L now sigProp
        { PublicKey := publicKey
          Date := none
          Expiration := none
          messageDigest := some messageDigest
          signatureBytes := some signatureBytes }) := by
  rw [ParseSignature_of_structure L now sigProp keyBytes publicKey messageDigest sigStr
    signatureBytes hkey hpk hdig hsig hsb, hver]
  simp

/-- For a document `D` whose filtered mapping `json.Marshal` encodes, a
signature that verifies `D` does not verify a document `D'` that differs from
`D` at a top-level key that takes part in the digest, when SHA-1 has no
collision between the two canonical serializations and `json.Marshal` encodes
the two filtered mappings differently. -/
theorem tamper_sensitivity_of_encodable (L : Lib) (now : Int) (s : Option Signature) (D D' : GoMap)
    (k : String)
    (hD : NodupKeys D) (hD' : NodupKeys D')
    (hk : ¬ (k = "(signed)" ∨ (k.data.head? = some '_' ∧ k ≠ "_id")))
    (hchange : D.lookup k ≠ D'.lookup k)
    (hver : VerifyMessage L now s D = true)
    (henc : Marshal L (.obj (edited D)) ≠ none)
    (hjson : Marshal L (.obj (edited D)) = Marshal L (.obj (edited D')) →
      ∀ j, (edited D).lookup j = (edited D').lookup j)
    (hsha : L.sha1 (canon L D) = L.sha1 (canon L D') → canon L D = canon L D') :
    VerifyMessage L now s D' = false := by
  have hne : canonicalDigest L D ≠ canonicalDigest L D' := fun h =>
    canon_ne_of_change L D D' k hD hD' ((messageKey_iff k).2 hk) hchange henc hjson (hsha h)
  cases s with
  | none => simp [VerifyMessage, StillValid]
  | some sig =>
    simp only [VerifyMessage, Bool.and_eq_true, decide_eq_true_eq] at hver
    simp only [VerifyMessage, Bool.and_eq_false_iff, decide_eq_false_iff_not]
    right
    rw [hver.2]
    intro h
    injection h with h
    exact hne h

/-- The signature of `aliceDoc` does not verify `bobDoc`. -/
theorem tamper_sensitivity_alice_bob :
    VerifyMessage toyLib t0 aliceSig bobDoc = false :=
  tamper_sensitivity_of_encodable toyLib t0 aliceSig aliceDoc bobDoc "name" (by decide)
    (by decide) (by decide) (by simp [aliceDoc, bobDoc, List.lookup_cons]) (by decide)
    (by decide) (fun h => absurd h (by decide)) (fun h => absurd h (by decide))
/-! ## The claims -/

/-- C1, as the code has it. A signature made by `CreateSignature` at the
instant `now`, with a validity that is not positive or is one minute or more
(or with no date), encoded by `MarshalJSON` and decoded to an object with the
same entries, is accepted by `ParseSignature` at `now`; the parsed signature
is still valid and verifies the document. This takes RSA verification to
accept what RSA signing produced, and ASN.1, base64 and RFC 3339 decoding to
invert the encoding of the public key, of the three byte strings of the
signature and of `now` (to the second). -/
theorem C1_round_trip (L : Lib) (now : Int) (D : GoMap) (K : RSAPrivateKey)
    (includeDate : Bool) (validity : Int) (s : Signature) (wire decoded : GoMap)
    (hrange : validity < 2 ^ 63)
    (hminute : includeDate = true → 0 < validity → Minute ≤ validity)
    (hcreate : CreateSignature L now D K includeDate validity = .ok s)
    (hwire : wireObject L s = some wire)
    (hdec : decoded.Perm wire)
    (hrsa : ∀ d sg, L.rsaSign K d = some sg → L.rsaVerify K.PublicKey d sg = true)
    (hasn : ∀ kb, L.asn1Marshal K.PublicKey = some kb → L.asn1Unmarshal kb = some K.PublicKey)
    (hb64 : ∀ b, (L.asn1Marshal K.PublicKey = some b ∨ b = canonicalDigest L D ∨
        s.signatureBytes = some b) → L.b64decode (L.b64encode b) = some b)
    (htime : L.parseRFC3339 (L.formatRFC3339 now) = some (now - now % Second)) :
    ∃ parsed, ParseSignature L now (.obj decoded) = .ret (.ok parsed) ∧
      StillValid now (some parsed) = true ∧ VerifyMessage L now (some parsed) D = true := by
  obtain ⟨kb, sigJson, sb, hkb, hjson, hsign, hs⟩ :=
    CreateSignature_ok L now D K includeDate validity s hcreate
  have hspk : s.PublicKey = K.PublicKey := by rw [hs]; rfl
  have hsmd : s.messageDigest = some (canonicalDigest L D) := by rw [hs]; rfl
  have hssb : s.signatureBytes = some sb := by rw [hs]
  have hlist : wireList L s kb =
      wireList L (unsignedSignature L now D K includeDate validity) kb := by rw [hs]; rfl
  rw [wireObject_eq, hspk, hkb] at hwire
  simp only [Option.map_some', Option.some.injEq] at hwire
  rw [← hwire] at hdec
  have hparse := ParseSignature_wire L now s kb (canonicalDigest L D) sb decoded hsmd hssb
    (by rw [hspk]; exact hasn kb hkb) hdec (hb64 kb (Or.inl hkb))
    (hb64 _ (Or.inr (Or.inl rfl))) (hb64 sb (Or.inr (Or.inr hssb)))
    (by rw [hlist, hjson, hspk]; exact hrsa _ _ hsign)
  have hnd := wire_nodup L s kb
  have hdate : mapGet decoded "date" = _ :=
    (mapGet_perm _ _ hnd hdec "date").trans (wire_get_date L s kb)
  have hexp : mapGet decoded "expires" = _ :=
    (mapGet_perm _ _ hnd hdec "expires").trans (wire_get_expires L s kb)
  have hsD : s.Date = if includeDate then some now else none := by rw [hs]; rfl
  have hsE : s.Expiration =
      if includeDate && decide (validity > 0) then some (now + validity) else none := by
    rw [hs]; rfl
  rw [hparse]
  unfold parseTimes
  rw [hdate, hexp, hsD, hsE]
  cases includeDate with
  | false =>
    refine ⟨_, rfl, rfl, ?_⟩
    simp [VerifyMessage, StillValid]
  | true =>
    by_cases hv : 0 < validity
    · have hmin := hminute rfl hv
      obtain ⟨m0, m1, m2, m3⟩ := minutes_bounds validity hmin
      have hq : ¬ (((Int.tdiv validity Minute : Int) : ℚ) < 0) := by
        have : (0 : Int) ≤ Int.tdiv validity Minute := le_of_lt m0
        exact_mod_cast not_lt.2 this
      have hdur : durationOfFloat ((Int.tdiv validity Minute : Int) : ℚ) =
          Int.tdiv validity Minute :=
        durationOfFloat_intCast _ (by omega) (by omega)
      have hwrap : wrap64 (Int.tdiv validity Minute * Minute) =
          Int.tdiv validity Minute * Minute :=
        wrap64_of_range _ (le_trans (le_of_lt m0) m3) (by omega)
      have hsv := stillValid_after_roundtrip now (Int.tdiv validity Minute * Minute) m2
        (by omega)
      simp only [hv, gt_iff_lt, decide_True, Bool.and_self, if_true, htime,
        date_not_future now, if_false, timeSub_add_self now validity (le_of_lt hv) hrange,
        hq, hdur, hwrap]
      refine ⟨_, rfl, ?_, ?_⟩
      · simp [StillValid, hsv]
      · simp [VerifyMessage, StillValid, hsv]
    · simp only [hv, gt_iff_lt, decide_False, Bool.and_false, if_true, htime,
        date_not_future now, if_false]
      refine ⟨_, rfl, rfl, ?_⟩
      simp [VerifyMessage, StillValid]

set_option maxRecDepth 8000 in
/-- The round trip of C1 on `aliceDoc`, with a validity of one hour and the
decoded entries listed in reverse order. -/
theorem C1_round_trip_witness :
    ∃ parsed, ParseSignature toyLib t0 (.obj (datedWire (3600 * Second)).reverse) =
        .ret (.ok parsed) ∧
      StillValid t0 (some parsed) = true ∧
      VerifyMessage toyLib t0 (some parsed) aliceDoc = true :=
  C1_round_trip toyLib t0 aliceDoc toyKey true (3600 * Second) (datedSig (3600 * Second))
    (datedWire (3600 * Second)) (datedWire (3600 * Second)).reverse
    (by decide) (fun _ _ => by decide) (by decide) rfl (List.reverse_perm _)
    (fun d sg h => by
      have hsg : sg = 7 :: d := by
        have h2 : some (7 :: d) = some sg := h
        injection h2 with h2
        exact h2.symm
      subst hsg
      simp [toyLib, toyKey])
    (fun kb h => by
      have h2 : some [7, 3] = some kb := h
      injection h2 with h2
      subst h2
      rfl)
    (fun b hb => by
      rcases hb with h | h | h
      · have h2 : some [7, 3] = some b := h
        injection h2 with h2
        subst h2
        decide
      · subst h
        decide
      · have h2 : (datedSig (3600 * Second)).signatureBytes = some b := h
        have h3 : b = ((datedSig (3600 * Second)).signatureBytes).getD [] := by
          rw [h2]; rfl
        subst h3
        decide)
    (by decide)

set_option maxRecDepth 8000 in
/-- C1 as stated fails for a validity under one minute: the wire form carries
the validity in whole minutes, here 0, and the date to the second, so the
signature of `aliceDoc` made at `t0` with a validity of 30 seconds is parsed
back with an expiration equal to its date, which is not later than `t0`. -/
theorem C1_counterexample :
    CreateSignature toyLib t0 aliceDoc toyKey true (30 * Second) =
        .ok (datedSig (30 * Second)) ∧
      wireObject toyLib (datedSig (30 * Second)) = some (datedWire (30 * Second)) ∧
      (∃ parsed, ParseSignature toyLib t0 (.obj (datedWire (30 * Second))) = .ret (.ok parsed) ∧
        parsed.Date = some (t0 - t0 % Second) ∧
        parsed.Expiration = some (t0 - t0 % Second) ∧
        StillValid t0 (some parsed) = false ∧
        VerifyMessage toyLib t0 (some parsed) aliceDoc = false) := by
  refine ⟨by decide, rfl, (datedParsed (30 * Second)).getD (datedSig 0), ?_, ?_, ?_, ?_, ?_⟩ <;>
    decide

/-- C2. Two documents that differ only in top-level keys that are "(signed)" or
start with an underscore and are not "_id" have the same canonical digest, and
every signature verifies against both or against neither. -/
theorem C2_tamper_insensitivity (L : Lib) (now : Int) (s : Option Signature) (D D' : GoMap)
    (hD : NodupKeys D) (hD' : NodupKeys D')
    (hdiff : ∀ k, ¬ (k = "(signed)" ∨ (k.data.head? = some '_' ∧ k ≠ "_id")) →
      D.lookup k = D'.lookup k) :
    canonicalDigest L D = canonicalDigest L D' ∧
      VerifyMessage L now s D = VerifyMessage L now s D' := by
  have hc : canonicalDigest L D = canonicalDigest L D' := by
    unfold canonicalDigest
    rw [canon_congr L D D' hD hD' (fun k hk => hdiff k ((messageKey_iff k).1 hk))]
  exact ⟨hc, by unfold VerifyMessage; rw [hc]⟩

/-- The digests of C2 on `aliceDoc` and `aliceDocTouched`. -/
theorem C2_tamper_insensitivity_witness :
    canonicalDigest toyLib aliceDoc = canonicalDigest toyLib aliceDocTouched ∧
      VerifyMessage toyLib t0 aliceSig aliceDoc =
        VerifyMessage toyLib t0 aliceSig aliceDocTouched :=
  C2_tamper_insensitivity toyLib t0 aliceSig aliceDoc aliceDocTouched (by decide) (by decide)
    (by
      intro k hk
      by_cases h1 : k = "_id"
      · subst h1; rfl
      · by_cases h2 : k = "name"
        · subst h2; rfl
        · by_cases h3 : k = "_rev"
          · subst h3; exact absurd (Or.inr ⟨rfl, by decide⟩) hk
          · by_cases h4 : k = "(signed)"
            · subst h4; exact absurd (Or.inl rfl) hk
            · simp [aliceDoc, aliceDocTouched, lookup_cons_ne _ _ _ _ h1,
                lookup_cons_ne _ _ _ _ h2, lookup_cons_ne _ _ _ _ h3,
                lookup_cons_ne _ _ _ _ h4])

/-- C3, at the failing inputs. When `json.Marshal` rejects the filtered
mappings of `D` and of `D'`, `canonicalDigest` drops the error for both and
returns the SHA-1 of no bytes, so a signature that verifies `D` verifies `D'`
as well, whatever the keys at which the two differ. -/
theorem C3_unencodable_documents_verify (L : Lib) (now : Int) (s : Option Signature)
    (D D' : GoMap)
    (hD : Marshal L (.obj (edited D)) = none)
    (hD' : Marshal L (.obj (edited D')) = none)
    (hver : VerifyMessage L now s D = true) :
    canonicalDigest L D = L.sha1 [] ∧ canonicalDigest L D' = L.sha1 [] ∧
      VerifyMessage L now s D' = true := by
  have h1 : canonicalDigest L D = L.sha1 [] := by
    unfold canonicalDigest canon
    rw [hD]
    rfl
  have h2 : canonicalDigest L D' = L.sha1 [] := by
    unfold canonicalDigest canon
    rw [hD']
    rfl
  refine ⟨h1, h2, ?_⟩
  unfold VerifyMessage at hver ⊢
  rw [h2, ← h1]
  exact hver

/-- The failure of C3 on `feedDoc` and `feedDocBob`, which differ at the key
"name" only: the signature of `feedDoc` verifies both. -/
theorem C3_unencodable_documents_verify_witness :
    feedDoc.lookup "name" ≠ feedDocBob.lookup "name" ∧
      (∀ j, j ≠ "name" → feedDoc.lookup j = feedDocBob.lookup j) ∧
      ¬ ("name" = "(signed)" ∨ ("name".data.head? = some '_' ∧ "name" ≠ "_id")) ∧
      VerifyMessage toyLib t0 feedSig feedDoc = true ∧
      VerifyMessage toyLib t0 feedSig feedDocBob = true := by
  refine ⟨?_, ?_, by decide, by decide,
    (C3_unencodable_documents_verify toyLib t0 feedSig feedDoc feedDocBob (by decide)
      (by decide) (by decide)).2.2⟩
  · simp [feedDoc, feedDocBob, List.lookup_cons]
  · intro j hj
    by_cases h1 : j = "feed"
    · subst h1; rfl
    · simp [feedDoc, feedDocBob, lookup_cons_ne _ _ _ _ h1, lookup_cons_ne _ _ _ _ hj]

/-- C4. For a document `D` and a top-level key `k` that `D` maps to `v`: `k` is
left out of the mapping `canonicalDigest` serializes exactly when `k` is
"(signed)" or starts with an underscore and is not "_id"; every other key is
there with the value `v` itself, nested keys included; and a key that `D` does
not have is not in that mapping either. The document is a value of the
embedding and is not changed by the call. -/
theorem C4_message_filter (D : GoMap) (hD : NodupKeys D) (k : String) :
    (∀ v, D.lookup k = some v →
      (((edited D).lookup k = none ↔
          (k = "(signed)" ∨ (k.data.head? = some '_' ∧ k ≠ "_id"))) ∧
       (¬ (k = "(signed)" ∨ (k.data.head? = some '_' ∧ k ≠ "_id")) →
          (edited D).lookup k = some v))) ∧
    (D.lookup k = none → (edited D).lookup k = none) := by
  rw [lookup_edited D hD]
  refine ⟨fun v hv => ⟨?_, ?_⟩, ?_⟩
  · by_cases hk : messageKey k = true
    · have := (messageKey_iff k).1 hk
      simp [hk, hv, this]
    · have : ¬¬ (k = "(signed)" ∨ (k.data.head? = some '_' ∧ k ≠ "_id")) :=
        fun h => hk ((messageKey_iff k).2 h)
      simp only [hk]
      simpa using not_not.1 this
  · intro hk
    simp [(messageKey_iff k).2 hk, hv]
  · intro hn
    by_cases hk : messageKey k = true <;> simp [hk, hn]

/-- The filter of C4 on `personDoc`, at a key whose value holds an
underscore-prefixed key. -/
theorem C4_message_filter_witness :
    (∀ v, personDoc.lookup "attachment_digests" = some v →
      (((edited personDoc).lookup "attachment_digests" = none ↔
          ("attachment_digests" = "(signed)" ∨
            ("attachment_digests".data.head? = some '_' ∧ "attachment_digests" ≠ "_id"))) ∧
       (¬ ("attachment_digests" = "(signed)" ∨
            ("attachment_digests".data.head? = some '_' ∧ "attachment_digests" ≠ "_id")) →
          (edited personDoc).lookup "attachment_digests" = some v))) ∧
    (personDoc.lookup "attachment_digests" = none →
      (edited personDoc).lookup "attachment_digests" = none) :=
  C4_message_filter personDoc (by decide) "attachment_digests"

/-- C5, as the code has it. The empty top-level key takes part in the message
digest: the predicate of `canonicalDigest` accepts it, so the mapping that is
serialized for a document with the entry "" -> v holds that entry, and the
mapping for a document without a "" entry holds none. -/
theorem C5_empty_key_participates (D : GoMap) (hD : NodupKeys D) (v : GoVal) :
    messageKey "" = true ∧
      (edited (mapSet D "" v)).lookup "" = some v ∧
      (D.lookup "" = none → (edited D).lookup "" = none) := by
  have hset : NodupKeys (mapSet D "" v) := by
    unfold NodupKeys at hD ⊢
    induction D with
    | nil => simp [mapSet]
    | cons q rest ih =>
      obtain ⟨a, b⟩ := q
      have hn : a ∉ rest.map Prod.fst ∧ (rest.map Prod.fst).Nodup := by simpa using hD
      by_cases ha : a = ""
      · subst ha; simpa [mapSet] using hn
      · simp only [mapSet, ha, if_false, List.map_cons, List.nodup_cons]
        refine ⟨?_, ih hn.2⟩
        intro hmem
        rw [mem_keys_iff_lookup, lookup_mapSet] at hmem
        simp only [ha, if_false] at hmem
        exact hn.1 ((mem_keys_iff_lookup rest a).2 hmem)
  refine ⟨by decide, ?_, ?_⟩
  · rw [lookup_edited _ hset, lookup_mapSet]
    simp [show messageKey "" = true by decide]
  · intro hn
    rw [lookup_edited _ hD]
    simp [hn]

/-- The empty key of C5 set in `aliceDoc`. -/
theorem C5_empty_key_participates_witness :
    messageKey "" = true ∧
      (edited (mapSet aliceDoc "" (.str "x"))).lookup "" = some (.str "x") ∧
      (aliceDoc.lookup "" = none → (edited aliceDoc).lookup "" = none) :=
  C5_empty_key_participates aliceDoc (by decide) (.str "x")

/-- C5 as stated fails: with the SHA-1 of `toyLib`, which hashes nothing away,
the digest of `aliceDoc` with the entry "" -> "x" differs from the digest of
`aliceDoc`, and so do the bytes that are hashed. -/
theorem C5_counterexample :
    canon toyLib (mapSet aliceDoc "" (.str "x")) ≠ canon toyLib aliceDoc ∧
      canonicalDigest toyLib (mapSet aliceDoc "" (.str "x")) ≠
        canonicalDigest toyLib aliceDoc := by
  decide

/-- C6, as the code has it. For a signature object that passes the structure
checks, `ParseSignature` returns `VerifyErr` exactly when the RSA check rejects
the SHA-1 of the canonical serialization of a mapping that holds a key of the
object, with its value, exactly when the key is not "sig" and passes the
message filter of `canonicalDigest` (it is not "(signed)" and does not start
with an underscore, unless it is "_id"). -/
theorem C6_self_signature_policy (L : Lib) (now : Int) (sigProp : GoMap)
    (keyBytes : Bytes) (publicKey : RSAPublicKey) (messageDigest : Bytes) (sigStr : String)
    (signatureBytes : Bytes)
    (hnd : NodupKeys sigProp)
    (hkey : getTypedData L (mapGet sigProp "key") "RSA" = .ret (some keyBytes))
    (hpk : L.asn1Unmarshal keyBytes = some publicKey)
    (hdig : getTypedData L (mapGet sigProp "digest") "SHA1" = .ret (some messageDigest))
    (hsig : mapGet sigProp "sig" = .str sigStr)
    (hsb : L.b64decode sigStr = some signatureBytes) :
    (ParseSignature L now (.obj sigProp) = .ret (.error .VerifyErr) ↔
      L.rsaVerify publicKey
        (L.sha1 ((Marshal L (.obj (edited (copyMap sigProp (fun key => key != "sig"))))).getD []))
        signatureBytes = false) ∧
    (∀ k, (edited (copyMap sigProp (fun key => key != "sig"))).lookup k =
      if k = "sig" ∨ k = "(signed)" ∨ (k.data.head? = some '_' ∧ k ≠ "_id") then none
      else sigProp.lookup k) := by
  constructor
  · rw [ParseSignature_of_structure L now sigProp keyBytes publicKey messageDigest sigStr
      signatureBytes hkey hpk hdig hsig hsb]
    unfold canonicalDigest canon
    constructor
    · intro h
      by_contra hv
      rw [if_neg hv] at h
      injection h with h
      exact parseTimes_ne_verifyErr _ _ _ _ h
    · intro h
      rw [if_pos h]
  · intro k
    rw [lookup_edited _ (nodupKeys_copyMap _ _ hnd), lookup_copyMap _ _ hnd]
    by_cases hm : messageKey k = true
    · have hx := (messageKey_iff k).1 hm
      by_cases hs : k = "sig"
      · subst hs; simp
      · have hx' : ¬ (k = "sig" ∨ k = "(signed)" ∨ (k.data.head? = some '_' ∧ k ≠ "_id")) := by
          rintro (h | h)
          · exact hs h
          · exact hx h
        rw [if_neg hx']
        simp [hm, hs]
    · have hx : k = "(signed)" ∨ (k.data.head? = some '_' ∧ k ≠ "_id") :=
        not_not.1 (fun h => hm ((messageKey_iff k).2 h))
      rw [if_pos (Or.inr hx)]
      simp [hm]

/-- The policy of C6 on `aliceWire` with one more key. -/
theorem C6_self_signature_policy_witness :
    (edited (copyMap (mapSet aliceWire "note" (.str "n")) (fun key => key != "sig"))).lookup
        "note" =
      if "note" = "sig" ∨ "note" = "(signed)" ∨ ("note".data.head? = some '_' ∧ "note" ≠ "_id")
      then none
      else (mapSet aliceWire "note" (.str "n")).lookup "note" :=
  (C6_self_signature_policy toyLib t0 (mapSet aliceWire "note" (.str "n")) [7, 3]
    { N := 7, E := 3 } (canonicalDigest toyLib aliceDoc)
    (toyLib.b64encode (((aliceSig.bind (fun s => s.signatureBytes))).getD []))
    (((aliceSig.bind (fun s => s.signatureBytes))).getD [])
    (by decide) (by decide) (by decide) (by decide) rfl (by decide)).2 "note"

/-- C6 as stated fails: a key "_note" or "(signed)" added to the wire object
`aliceWire` changes neither the bytes that are hashed for the self-signature
nor what `ParseSignature` returns. -/
theorem C6_counterexample :
    canon toyLib (copyMap (mapSet aliceWire "_note" (.str "forged")) (fun key => key != "sig")) =
        canon toyLib (copyMap aliceWire (fun key => key != "sig")) ∧
      canon toyLib (copyMap (mapSet aliceWire "(signed)" (.str "forged"))
          (fun key => key != "sig")) =
        canon toyLib (copyMap aliceWire (fun key => key != "sig")) ∧
      ParseSignature toyLib t0 (.obj (mapSet aliceWire "_note" (.str "forged"))) =
        ParseSignature toyLib t0 (.obj aliceWire) ∧
      (∃ s, ParseSignature toyLib t0 (.obj aliceWire) = .ret (.ok s)) := by
  refine ⟨by decide, by decide, by decide, ?_⟩
  exact ⟨_, rfl⟩

/-- C7. An object that passes the structure checks and whose RSA check fails
gets `VerifyErr`, whatever its "date" and "expires" hold; and whenever
`ParseSignature` returns `TimeErr`, its input is an object that passed the
structure checks and the RSA check. -/
theorem C7_self_signature_before_times (L : Lib) (now : Int) (sigProp : GoMap)
    (keyBytes : Bytes) (publicKey : RSAPublicKey) (messageDigest : Bytes) (sigStr : String)
    (signatureBytes : Bytes)
    (hkey : getTypedData L (mapGet sigProp "key") "RSA" = .ret (some keyBytes))
    (hpk : L.asn1Unmarshal keyBytes = some publicKey)
    (hdig : getTypedData L (mapGet sigProp "digest") "SHA1" = .ret (some messageDigest))
    (hsig : mapGet sigProp "sig" = .str sigStr)
    (hsb : L.b64decode sigStr = some signatureBytes)
    (hbad : L.rsaVerify publicKey
      (canonicalDigest L (copyMap sigProp (fun key => key != "sig"))) signatureBytes = false) :
    ParseSignature L now (.obj sigProp) = .ret (.error .VerifyErr) ∧
    (∀ input, ParseSignature L now input = .ret (.error .TimeErr) →
      ∃ obj kb pk md str sb,
        input = .obj obj ∧
        getTypedData L (mapGet obj "key") "RSA" = .ret (some kb) ∧
        L.asn1Unmarshal kb = some pk ∧
        getTypedData L (mapGet obj "digest") "SHA1" = .ret (some md) ∧
        mapGet obj "sig" = .str str ∧
        L.b64decode str = some sb ∧
        L.rsaVerify pk (canonicalDigest L (copyMap obj (fun key => key != "sig"))) sb = true) := by
  constructor
  · rw [ParseSignature_of_structure L now sigProp keyBytes publicKey messageDigest sigStr
      signatureBytes hkey hpk hdig hsig hsb, if_pos hbad]
  · intro input h
    obtain ⟨obj, kb, pk, md, str, sb, rfl, h1, h2, h3, h4, h5⟩ :=
      structure_of_ParseSignature L now input _ h (by simp) (by simp)
    refine ⟨obj, kb, pk, md, str, sb, rfl, h1, h2, h3, h4, h5, ?_⟩
    rw [ParseSignature_of_structure L now obj kb pk md str sb h1 h2 h3 h4 h5] at h
    by_contra hv
    have hf : L.rsaVerify pk (canonicalDigest L (copyMap obj (fun key => key != "sig"))) sb
        = false := by simpa using hv
    rw [if_pos hf] at h
    cases h

/-- The order of checks of C7 on `aliceForgedWire`: a bad self-signature and a
date in the future give `VerifyErr`. -/
theorem C7_self_signature_before_times_witness :
    ParseSignature toyLib t0 (.obj aliceForgedWire) = .ret (.error .VerifyErr) :=
  (C7_self_signature_before_times toyLib t0 aliceForgedWire [7, 3] { N := 7, E := 3 }
    (canonicalDigest toyLib aliceDoc) "bad" [98, 97, 100]
    (by decide) (by decide) (by decide) rfl (by decide) (by decide)).1

/-- C8, at the failing inputs. When the "key" field is absent, is not an array
or is an array of fewer than two elements, or when the key is accepted and the
"digest" field has one of these shapes, `ParseSignature` does not return:
`getTypedData` ends the process in `log.Fatalf`. And `getTypedData` reads only
the first two elements of a longer array, which it treats as the two-element
array. -/
theorem C8_malformed_shape_exits (L : Lib) (now : Int) (sigProp : GoMap)
    (h : (∀ a0 a1 rest, mapGet sigProp "key" ≠ .arr (a0 :: a1 :: rest)) ∨
      ((∃ kb pk, getTypedData L (mapGet sigProp "key") "RSA" = .ret (some kb) ∧
          L.asn1Unmarshal kb = some pk) ∧
        ∀ a0 a1 rest, mapGet sigProp "digest" ≠ .arr (a0 :: a1 :: rest))) :
    ParseSignature L now (.obj sigProp) = .exit ∧
      ∀ a0 a1 rest ty,
        getTypedData L (.arr (a0 :: a1 :: rest)) ty = getTypedData L (.arr [a0, a1]) ty := by
  refine ⟨?_, fun a0 a1 rest ty => rfl⟩
  rcases h with h | ⟨⟨kb, pk, hkey, hpk⟩, h⟩
  · simp only [ParseSignature, getTypedData_exit L _ "RSA" h]
  · simp only [ParseSignature, hkey, hpk, getTypedData_exit L _ "SHA1" h]

/-- The exit of C8 on the empty object. -/
theorem C8_malformed_shape_exits_witness :
    ParseSignature toyLib t0 (.obj []) = .exit :=
  (C8_malformed_shape_exits toyLib t0 [] (Or.inl (fun a0 a1 rest h => by
    have hnull : mapGet [] "key" = .null := rfl
    rw [hnull] at h
    cases h))).1

/-- C9. When "key" and "digest" are both two-element arrays and the tag of the
key is not "RSA", or the tag of the digest is not "SHA1", or either second
element is not a string that base64 decodes, or the key bytes are not an RSA
public key, `ParseSignature` returns `StructureErr`. -/
theorem C9_wrong_tag_or_encoding (L : Lib) (now : Int) (sigProp : GoMap)
    (k0 k1 d0 d1 : GoVal)
    (hk : mapGet sigProp "key" = .arr [k0, k1])
    (hd : mapGet sigProp "digest" = .arr [d0, d1])
    (hbad : k0 ≠ .str "RSA" ∨ d0 ≠ .str "SHA1" ∨
      (∀ e, k1 = .str e → L.b64decode e = none) ∨
      (∀ e, d1 = .str e → L.b64decode e = none) ∨
      (∀ e kb, k1 = .str e → L.b64decode e = some kb → L.asn1Unmarshal kb = none)) :
    ParseSignature L now (.obj sigProp) = .ret (.error .StructureErr) := by
  have key_ok : ∀ (a0 a1 : GoVal) (ty : String) (b : Bytes), ty ≠ "" →
      (if (asString a0).getD "" ≠ ty then none else (asString a1).bind L.b64decode) = some b →
      a0 = .str ty ∧ ∃ e, a1 = .str e ∧ L.b64decode e = some b := by
    intro a0 a1 ty b hty hx
    by_cases h0 : (asString a0).getD "" = ty
    · rw [if_neg (by simpa using h0)] at hx
      refine ⟨(asString_getD_eq_iff a0 ty hty).1 h0, ?_⟩
      cases a1 <;> simp [asString] at hx
      exact ⟨_, rfl, hx⟩
    · rw [if_pos h0] at hx; cases hx
  simp only [ParseSignature, hk, hd, getTypedData_pair]
  cases hx : (if (asString k0).getD "" ≠ "RSA" then none else (asString k1).bind L.b64decode) with
  | none => rfl
  | some kb =>
    obtain ⟨hk0, e, hk1, hke⟩ := key_ok k0 k1 "RSA" kb (by decide) hx
    dsimp only
    cases hp : L.asn1Unmarshal kb with
    | none => rfl
    | some pk =>
      dsimp only
      cases hy : (if (asString d0).getD "" ≠ "SHA1" then none
          else (asString d1).bind L.b64decode) with
      | none => rfl
      | some md =>
        obtain ⟨hd0, e', hd1, hde⟩ := key_ok d0 d1 "SHA1" md (by decide) hy
        exfalso
        rcases hbad with h | h | h | h | h
        · exact h hk0
        · exact h hd0
        · rw [h e hk1] at hke; cases hke
        · rw [h e' hd1] at hde; cases hde
        · rw [h e kb hk1 hke] at hp; cases hp

/-- The rejection of C9 on `dsaWire`. -/
theorem C9_wrong_tag_or_encoding_witness :
    ParseSignature toyLib t0 (.obj dsaWire) = .ret (.error .StructureErr) :=
  C9_wrong_tag_or_encoding toyLib t0 dsaWire (.str "DSA") (.str "x") (.str "SHA1") (.str "x")
    rfl rfl (Or.inl (by simp))

/-- C10, at the failing inputs. When "key" and "digest" are well formed and
"sig" is absent or is not a string, `ParseSignature` does not return an error:
the type assertion on the "sig" field panics. -/
theorem C10_missing_sig_panics (L : Lib) (now : Int) (sigProp : GoMap)
    (keyBytes : Bytes) (publicKey : RSAPublicKey) (messageDigest : Bytes)
    (hkey : getTypedData L (mapGet sigProp "key") "RSA" = .ret (some keyBytes))
    (hpk : L.asn1Unmarshal keyBytes = some publicKey)
    (hdig : getTypedData L (mapGet sigProp "digest") "SHA1" = .ret (some messageDigest))
    (hsig : ∀ s, mapGet sigProp "sig" ≠ .str s) :
    ParseSignature L now (.obj sigProp) = .panic := by
  unfold ParseSignature
  simp only [hkey, hpk, hdig]

/-- The panic of C10 on the wire form of a signature that is not signed yet. -/
theorem C10_missing_sig_panics_witness :
    ParseSignature toyLib t0 (.obj aliceUnsignedWire) = .panic :=
  C10_missing_sig_panics toyLib t0 aliceUnsignedWire [7, 3] { N := 7, E := 3 }
    (canonicalDigest toyLib aliceDoc) (by decide) (by decide) (by decide)
    (fun s h => by
      have hnull : mapGet aliceUnsignedWire "sig" = .null := rfl
      rw [hnull] at h
      cases h)

/-- C11. `ParseSignature` returns `NoSignatureErr` exactly when its input is
nil; it returns `StructureErr` for every input that is neither nil nor an
object; and `GetSignature` returns `NoSignatureErr` for a body that has no
"(signed)" entry or has null there. -/
theorem C11_missing_signature (L : Lib) (now : Int) :
    (∀ input, ParseSignature L now input = .ret (.error .NoSignatureErr) ↔ input = .null) ∧
    (∀ input, input ≠ .null → (∀ m, input ≠ .obj m) →
      ParseSignature L now input = .ret (.error .StructureErr)) ∧
    (∀ body : GoMap, (body.lookup "(signed)" = none ∨ body.lookup "(signed)" = some .null) →
      GetSignature L now body = .ret (.error .NoSignatureErr)) := by
  refine ⟨fun input => ⟨fun h => ?_, fun h => ?_⟩, fun input h1 h2 => ?_, fun body h => ?_⟩
  · cases input with
    | null => rfl
    | obj m =>
      exfalso
      unfold ParseSignature at h
      simp only at h
      split at h
      · cases h
      · cases h
      · cases h
      · split at h
        · cases h
        · split at h
          · cases h
          · cases h
          · cases h
          · split at h
            · split at h
              · cases h
              · split at h
                · cases h
                · injection h with h
                  exact parseTimes_ne_noSignatureErr _ _ _ _ h
            · cases h
    | _ => simp [ParseSignature] at h
  · subst h; rfl
  · cases input with
    | null => exact absurd rfl h1
    | obj m => exact absurd rfl (h2 m)
    | _ => rfl
  · unfold GetSignature mapGet
    rcases h with h | h <;> rw [h] <;> rfl

/-- The missing signature of C11 on `aliceDoc`, which has no "(signed)" entry. -/
theorem C11_missing_signature_witness :
    GetSignature toyLib t0 aliceDoc = .ret (.error .NoSignatureErr) :=
  (C11_missing_signature toyLib t0).2.2 aliceDoc (Or.inl rfl)

/-- C12, as the code has it. For a signature object that passes the structure
checks and the self-signature check: when "date" is a string that does not
parse as a time stamp, `ParseSignature` returns `TimeErr`; when "date" is not
a string (a number, say), it is treated as absent, and `ParseSignature`
returns a signature with neither `Date` nor `Expiration`. -/
theorem C12_malformed_date (L : Lib) (now : Int) (sigProp : GoMap)
    (keyBytes : Bytes) (publicKey : RSAPublicKey) (messageDigest : Bytes) (sigStr : String)
    (signatureBytes : Bytes)
    (hkey : getTypedData L (mapGet sigProp "key") "RSA" = .ret (some keyBytes))
    (hpk : L.asn1Unmarshal keyBytes = some publicKey)
    (hdig : getTypedData L (mapGet sigProp "digest") "SHA1" = .ret (some messageDigest))
    (hsig : mapGet sigProp "sig" = .str sigStr)
    (hsb : L.b64decode sigStr = some signatureBytes)
    (hver : L.rsaVerify publicKey
      (canonicalDigest L (copyMap sigProp (fun key => key != "sig"))) signatureBytes = true) :
    (∀ ds, mapGet sigProp "date" = .str ds → L.parseRFC3339 ds = none →
      ParseSignature L now (.obj sigProp) = .ret (.error .TimeErr)) ∧
    ((∀ ds, mapGet sigProp "date" ≠ .str ds) →
      ParseSignature L now (.obj sigProp) =
        .ret (.ok
          { PublicKey := publicKey
            Date := none
            Expiration := none
            messageDigest := some messageDigest
            signatureBytes := some signatureBytes })) := by
  rw [ParseSignature_of_verified L now sigProp keyBytes publicKey messageDigest sigStr
    signatureBytes hkey hpk hdig hsig hsb hver]
  constructor
  · intro ds hd hp
    simp only [parseTimes, hd, hp]
  · intro hd
    unfold parseTimes
    cases hv : mapGet sigProp "date" with
    | str ds => exact absurd hv (hd ds)
    | _ => rfl

/-- The rejection of C12 on a signed object whose "date" is "yesterday". -/
theorem C12_malformed_date_witness :
    ParseSignature toyLib t0 (.obj (datedObject (.str "yesterday"))) =
      .ret (.error .TimeErr) :=
  (C12_malformed_date toyLib t0 (datedObject (.str "yesterday")) [7, 3] { N := 7, E := 3 }
    (canonicalDigest toyLib aliceDoc)
    (toyLib.b64encode (7 :: canonicalDigest toyLib
      (mapSet aliceUnsignedWire "date" (.str "yesterday"))))
    (7 :: canonicalDigest toyLib (mapSet aliceUnsignedWire "date" (.str "yesterday")))
    (by decide) (by decide) (by decide) rfl (by decide) (by decide)).1 "yesterday" rfl
    (by decide)

/-- C12 as stated fails for a "date" that is not a string: the signed object
of `aliceDoc` whose "date" is the number 5 is accepted, with no `Date`. -/
theorem C12_counterexample :
    (datedObject (.num 5)).lookup "date" = some (.num 5) ∧
      ∃ s, ParseSignature toyLib t0 (.obj (datedObject (.num 5))) = .ret (.ok s) ∧
        s.Date = none ∧ s.Expiration = none := by
  refine ⟨rfl,
    { PublicKey := { N := 7, E := 3 }
      Date := none
      Expiration := none
      messageDigest := some (canonicalDigest toyLib aliceDoc)
      signatureBytes := some (7 :: canonicalDigest toyLib
        (mapSet aliceUnsignedWire "date" (.num 5))) }, ?_, ?_, ?_⟩ <;> decide

/-- C13. For a signature object that passes the structure checks and the
self-signature check, whose "date" parses to the instant `d` and which has no
"expires" entry, `ParseSignature` at the clock reading `now` returns `TimeErr`
exactly when `d` is more than one second later than `now`; otherwise it
returns the signature with `Date` equal to `d`. -/
theorem C13_forward_tolerance (L : Lib) (now : Int) (sigProp : GoMap)
    (keyBytes : Bytes) (publicKey : RSAPublicKey) (messageDigest : Bytes) (sigStr : String)
    (signatureBytes : Bytes) (ds : String) (d : Int)
    (hkey : getTypedData L (mapGet sigProp "key") "RSA" = .ret (some keyBytes))
    (hpk : L.asn1Unmarshal keyBytes = some publicKey)
    (hdig : getTypedData L (mapGet sigProp "digest") "SHA1" = .ret (some messageDigest))
    (hsig : mapGet sigProp "sig" = .str sigStr)
    (hsb : L.b64decode sigStr = some signatureBytes)
    (hver : L.rsaVerify publicKey
      (canonicalDigest L (copyMap sigProp (fun key => key != "sig"))) signatureBytes = true)
    (hdate : mapGet sigProp "date" = .str ds)
    (hparse : L.parseRFC3339 ds = some d)
    (hexp : sigProp.lookup "expires" = none) :
    (ParseSignature L now (.obj sigProp) = .ret (.error .TimeErr) ↔ now + Second < d) ∧
    (¬ (now + Second < d) →
      ParseSignature L now (.obj sigProp) =
        .ret (.ok
          { PublicKey := publicKey
            Date := some d
            Expiration := none
            messageDigest := some messageDigest
            signatureBytes := some signatureBytes })) := by
  have hnull : mapGet sigProp "expires" = .null := by
    unfold mapGet; rw [hexp]; rfl
  rw [ParseSignature_of_verified L now sigProp keyBytes publicKey messageDigest sigStr
    signatureBytes hkey hpk hdig hsig hsb hver]
  simp only [parseTimes, hdate, hparse, hnull, timeSince_lt_neg_second_iff]
  by_cases h : now + Second < d
  · simp [h]
  · simp [h]

/-- The tolerance of C13 at `t0`, half a second past 1700000000: a date of
1700000001 is accepted. -/
theorem C13_forward_tolerance_witness :
    ParseSignature toyLib t0 (.obj (datedObject (.str "1700000001"))) =
      .ret (.ok
        { PublicKey := { N := 7, E := 3 }
          Date := some 1700000001000000000
          Expiration := none
          messageDigest := some (canonicalDigest toyLib aliceDoc)
          signatureBytes := some (7 :: canonicalDigest toyLib
            (mapSet aliceUnsignedWire "date" (.str "1700000001"))) }) :=
  (C13_forward_tolerance toyLib t0 (datedObject (.str "1700000001")) [7, 3] { N := 7, E := 3 }
    (canonicalDigest toyLib aliceDoc)
    (toyLib.b64encode (7 :: canonicalDigest toyLib
      (mapSet aliceUnsignedWire "date" (.str "1700000001"))))
    (7 :: canonicalDigest toyLib (mapSet aliceUnsignedWire "date" (.str "1700000001")))
    "1700000001" 1700000001000000000
    (by decide) (by decide) (by decide) rfl (by decide) (by decide) rfl (by decide)
    rfl).2 (by decide)

/-- C14. `StillValid` at the instant `t` is true exactly when the signature is
not nil and has no `Expiration` or `t` is strictly earlier than it. A
signature made by `CreateSignature` at `t0` with a date and a validity of one
hour has `Date = t0` and `Expiration = t0 + 1h`, is valid at `t0` and is not
valid at any instant later than `t0 + 1h`; a signature made with no date or
with a validity that is not positive has no `Expiration` and is valid at
every instant. -/
theorem C14_validity_window (L : Lib) (t0 : Int) (D : GoMap) (K : RSAPrivateKey) :
    (∀ (s : Option Signature) (t : Int),
      StillValid t s = true ↔
        ∃ sig, s = some sig ∧
          (sig.Expiration = none ∨ ∃ e, sig.Expiration = some e ∧ t < e)) ∧
    (∀ s, CreateSignature L t0 D K true (3600 * Second) = .ok s →
      s.Date = some t0 ∧ s.Expiration = some (t0 + 3600 * Second) ∧
        StillValid t0 (some s) = true ∧
        ∀ t, t0 + 3600 * Second < t → StillValid t (some s) = false) ∧
    (∀ includeDate validity s, (includeDate = false ∨ validity ≤ 0) →
      CreateSignature L t0 D K includeDate validity = .ok s →
      s.Expiration = none ∧ ∀ t, StillValid t (some s) = true) := by
  refine ⟨fun s t => ?_, fun s h => ?_, fun includeDate validity s hc h => ?_⟩
  · cases s with
    | none => simp [StillValid]
    | some sig =>
      cases he : sig.Expiration with
      | none => simp [StillValid, he]
      | some e => simp [StillValid, he, timeSince_neg_iff]
  · obtain ⟨kb, sigJson, sb, _, _, _, hs⟩ := CreateSignature_ok L t0 D K true _ s h
    have hd : s.Date = some t0 := by rw [hs]; rfl
    have he : s.Expiration = some (t0 + 3600 * Second) := by rw [hs]; rfl
    have hsec : Second = 1000000000 := rfl
    refine ⟨hd, he, ?_, fun t ht => ?_⟩
    · simp only [StillValid, he, decide_eq_true_eq, timeSince_neg_iff]
      omega
    · simp only [StillValid, he, decide_eq_false_iff_not, timeSince_neg_iff]
      omega
  · obtain ⟨kb, sigJson, sb, _, _, _, hs⟩ :=
      CreateSignature_ok L t0 D K includeDate validity s h
    have he : s.Expiration = none := by
      rw [hs]
      show (if includeDate && decide (validity > 0) then some (t0 + validity) else none) = none
      rcases hc with hc | hc
      · simp [hc]
      · have : ¬ validity > 0 := by omega
        simp [this]
    exact ⟨he, fun t => by simp [StillValid, he]⟩

set_option maxRecDepth 8000 in
/-- The window of C14 on the signature of `aliceDoc` made at `t0` with a
validity of one hour. -/
theorem C14_validity_window_witness :
    (datedSig (3600 * Second)).Date = some t0 ∧
      (datedSig (3600 * Second)).Expiration = some (t0 + 3600 * Second) ∧
      StillValid t0 (some (datedSig (3600 * Second))) = true ∧
      ∀ t, t0 + 3600 * Second < t → StillValid t (some (datedSig (3600 * Second))) = false :=
  (C14_validity_window toyLib t0 aliceDoc toyKey).2.1 (datedSig (3600 * Second)) (by decide)

/-- C15. `VerifyMessage` is true exactly when `StillValid` holds and the
`messageDigest` of the signature equals, byte for byte, the SHA-1 of what
`json.Marshal` wrote for the message-filtered document (no bytes when it
failed); on a nil signature it returns false; and the "(signed)" entry of the
document, where a digest could be read, has no part in the result. -/
theorem C15_document_verification (L : Lib) (now : Int) (s : Option Signature) (m : GoMap) :
    (VerifyMessage L now s m = true ↔
      (StillValid now s = true ∧
        ∃ sig, s = some sig ∧
          sig.messageDigest = some (L.sha1 ((Marshal L (.obj (edited m))).getD [])))) ∧
    VerifyMessage L now none m = false ∧
    (NodupKeys m → ∀ v, VerifyMessage L now s (mapSet m "(signed)" v) =
      VerifyMessage L now s m) := by
  refine ⟨?_, rfl, fun hm v => ?_⟩
  · cases s with
    | none => simp [VerifyMessage, StillValid]
    | some sig => simp [VerifyMessage, canonicalDigest, canon]
  · unfold VerifyMessage canonicalDigest
    rw [canon_mapSet_signed L m v hm]

/-- The verification of C15 on `aliceDocTouched`, with another "(signed)"
entry. -/
theorem C15_document_verification_witness :
    VerifyMessage toyLib t0 aliceSig (mapSet aliceDocTouched "(signed)" (.str "digest")) =
      VerifyMessage toyLib t0 aliceSig aliceDocTouched :=
  (C15_document_verification toyLib t0 aliceSig aliceDocTouched).2.2 (by decide)
    (.str "digest")

/-- C16, at the failing inputs. When `json.Marshal` rejects the filtered
document, `canonicalDigest` drops the error and the digest is the SHA-1 of no
bytes; `CreateSignature` then returns a signature exactly when the encoding of
the signature and the RSA signing succeed, as for any other document, and
that signature has `signatureBytes` that are not nil. -/
theorem C16_document_error_dropped (L : Lib) (now : Int) (D : GoMap) (K : RSAPrivateKey)
    (includeDate : Bool) (validity : Int)
    (hdoc : Marshal L (.obj (edited D)) = none) :
    (unsignedSignature L now D K includeDate validity).messageDigest = some (L.sha1 []) ∧
    (∀ s, CreateSignature L now D K includeDate validity = .ok s ↔
      ∃ sigJson sb,
        MarshalJSON L (unsignedSignature L now D K includeDate validity) = some sigJson ∧
        L.rsaSign K (L.sha1 sigJson) = some sb ∧
        s = { unsignedSignature L now D K includeDate validity with
              signatureBytes := some sb }) := by
  constructor
  · show some (canonicalDigest L D) = some (L.sha1 [])
    unfold canonicalDigest canon
    rw [hdoc]
    rfl
  · intro s
    cases hm : MarshalJSON L (unsignedSignature L now D K includeDate validity) with
    | none => simp [CreateSignature, hm]
    | some sigJson =>
      cases hs : L.rsaSign K (L.sha1 sigJson) with
      | none =>
        simp only [CreateSignature, hm, hs, Option.some.injEq]
        constructor
        · intro h; cases h
        · rintro ⟨j, b, hj, hb, _⟩
          subst hj
          rw [hs] at hb
          cases hb
      | some sb =>
        simp only [CreateSignature, hm, hs, Except.ok.injEq, Option.some.injEq]
        constructor
        · intro h
          exact ⟨sigJson, sb, rfl, hs, h.symm⟩
        · rintro ⟨j, b, hj, hb, rfl⟩
          subst hj
          rw [hs] at hb
          injection hb with hb
          subst hb
          rfl

/-- The dropped error of C16 on `feedDoc`: `CreateSignature` returns a
signature whose digest is that of no bytes. -/
theorem C16_document_error_dropped_witness :
    (unsignedSignature toyLib t0 feedDoc toyKey false 0).messageDigest =
        some (toyLib.sha1 []) ∧
      ∃ s, CreateSignature toyLib t0 feedDoc toyKey false 0 = .ok s :=
  ⟨(C16_document_error_dropped toyLib t0 feedDoc toyKey false 0 (by decide)).1,
   ⟨_, ((C16_document_error_dropped toyLib t0 feedDoc toyKey false 0 (by decide)).2 _).2
      ⟨_, _, rfl, rfl, rfl⟩⟩⟩

/-- C17, as the code has it. After a successful `AddSignature` the message
holds under "(signed)" the `*Signature` itself, not a wire-form object (it
becomes one when the message is JSON-encoded); every other key is unchanged;
that signature verifies the message with its new entry at the signing
instant; and `GetSignature` on this in-memory message returns `StructureErr`.
On failure the message is unchanged and the error is returned. -/
theorem C17_embedding (L : Lib) (now : Int) (message : GoMap) (K : RSAPrivateKey)
    (includeDate : Bool) (validity : Int) (hnd : NodupKeys message) :
    (∀ s, CreateSignature L now message K includeDate validity = .ok s →
      AddSignature L now message K includeDate validity =
        (mapSet message "(signed)" (.sig s), none) ∧
      mapGet (mapSet message "(signed)" (.sig s)) "(signed)" = .sig s ∧
      (∀ k, k ≠ "(signed)" →
        (mapSet message "(signed)" (.sig s)).lookup k = message.lookup k) ∧
      GetSignature L now (mapSet message "(signed)" (.sig s)) =
        .ret (.error .StructureErr) ∧
      VerifyMessage L now (some s) (mapSet message "(signed)" (.sig s)) = true) ∧
    (∀ e, CreateSignature L now message K includeDate validity = .error e →
      AddSignature L now message K includeDate validity = (message, some e)) := by
  constructor
  · intro s h
    have hget : mapGet (mapSet message "(signed)" (.sig s)) "(signed)" = .sig s := by
      unfold mapGet
      rw [lookup_mapSet]
      simp
    refine ⟨by simp [AddSignature, h], hget, fun k hk => ?_, ?_, ?_⟩
    · rw [lookup_mapSet]
      simp [hk]
    · unfold GetSignature
      rw [hget]
      rfl
    · obtain ⟨kb, sigJson, sb, _, _, _, hs⟩ :=
        CreateSignature_ok L now message K includeDate validity s h
      have hmd : s.messageDigest = some (canonicalDigest L message) := by rw [hs]; rfl
      have he : s.Expiration =
          if includeDate && decide (validity > 0) then some (now + validity) else none := by
        rw [hs]; rfl
      have hvalid : StillValid now (some s) = true := by
        unfold StillValid
        simp only [he]
        by_cases hc : (includeDate && decide (validity > 0)) = true
        · simp only [hc, if_true, decide_eq_true_eq, timeSince_neg_iff]
          have hv : validity > 0 := by
            have h2 := hc
            simp only [Bool.and_eq_true, decide_eq_true_eq] at h2
            exact h2.2
          omega
        · simp [hc]
      unfold VerifyMessage canonicalDigest
      rw [hvalid, canon_mapSet_signed L message _ hnd]
      simp [hmd, canonicalDigest]
  · intro e h
    simp [AddSignature, h]

/-- The embedding of C17 on `aliceDoc`: the key "name" is unchanged. -/
theorem C17_embedding_witness :
    (mapSet aliceDoc "(signed)" (.sig (createdOr
        (CreateSignature toyLib t0 aliceDoc toyKey false 0)
        (unsignedSignature toyLib t0 aliceDoc toyKey false 0)))).lookup "name" =
      aliceDoc.lookup "name" :=
  ((C17_embedding toyLib t0 aliceDoc toyKey false 0 (by decide)).1
    (createdOr (CreateSignature toyLib t0 aliceDoc toyKey false 0)
      (unsignedSignature toyLib t0 aliceDoc toyKey false 0)) (by decide)).2.2.1 "name"
    (by decide)

/-- C17 as stated fails: after `AddSignature` on `aliceDoc`, which returns no
error, `GetSignature` on the message returns `StructureErr`. -/
theorem C17_counterexample :
    (AddSignature toyLib t0 aliceDoc toyKey false 0).2 = none ∧
      GetSignature toyLib t0 (AddSignature toyLib t0 aliceDoc toyKey false 0).1 =
        .ret (.error .StructureErr) := by
  decide

/-- C18, at the failing inputs. For a signature object that passes the
structure checks and the self-signature check, with a date `d` that is not in
the future and "expires" equal to 200000000 minutes, the product with
`time.Minute` wraps around in 64 bits: `ParseSignature` returns a signature
whose `Expiration` is 6446744073709551616 nanoseconds earlier than its
`Date`. -/
theorem C18_expiration_wraps (L : Lib) (now : Int) (sigProp : GoMap)
    (keyBytes : Bytes) (publicKey : RSAPublicKey) (messageDigest : Bytes) (sigStr : String)
    (signatureBytes : Bytes) (ds : String) (d : Int)
    (hkey : getTypedData L (mapGet sigProp "key") "RSA" = .ret (some keyBytes))
    (hpk : L.asn1Unmarshal keyBytes = some publicKey)
    (hdig : getTypedData L (mapGet sigProp "digest") "SHA1" = .ret (some messageDigest))
    (hsig : mapGet sigProp "sig" = .str sigStr)
    (hsb : L.b64decode sigStr = some signatureBytes)
    (hver : L.rsaVerify publicKey
      (canonicalDigest L (copyMap sigProp (fun key => key != "sig"))) signatureBytes = true)
    (hdate : mapGet sigProp "date" = .str ds)
    (hparse : L.parseRFC3339 ds = some d)
    (hnow : ¬ (now + Second < d))
    (hexp : mapGet sigProp "expires" = .num 200000000) :
    ParseSignature L now (.obj sigProp) =
      .ret (.ok
        { PublicKey := publicKey
          Date := some d
          Expiration := some (d + -6446744073709551616)
          messageDigest := some messageDigest
          signatureBytes := some signatureBytes }) ∧
    d + -6446744073709551616 < d := by
  have hq : ¬ ((200000000 : ℚ) < 0) := by decide
  have hw : wrap64 (durationOfFloat 200000000 * Minute) = -6446744073709551616 := by decide
  constructor
  · rw [ParseSignature_of_verified L now sigProp keyBytes publicKey messageDigest sigStr
      signatureBytes hkey hpk hdig hsig hsb hver]
    simp only [parseTimes, hdate, hparse, hexp, timeSince_lt_neg_second_iff, hnow, if_false,
      hq, hw]
  · omega

set_option maxRecDepth 8000 in
/-- The wrap-around of C18 on `bigExpiresWire`, parsed at `t0`: the date is
in 2023 and the expiration before 1970. -/
theorem C18_expiration_wraps_witness :
    ParseSignature digitLib t0 (.obj bigExpiresWire) =
      .ret (.ok
        { PublicKey := { N := 7, E := 3 }
          Date := some 1700000000000000000
          Expiration := some (1700000000000000000 + -6446744073709551616)
          messageDigest := some (canonicalDigest toyLib aliceDoc)
          signatureBytes := some (7 :: canonicalDigest digitLib
            (mapSet (mapSet aliceUnsignedWire "date" (.str "1700000000")) "expires"
              (.num 200000000))) }) :=
  (C18_expiration_wraps digitLib t0 bigExpiresWire [7, 3] { N := 7, E := 3 }
    (canonicalDigest toyLib aliceDoc)
    (digitLib.b64encode (7 :: canonicalDigest digitLib
      (mapSet (mapSet aliceUnsignedWire "date" (.str "1700000000")) "expires"
        (.num 200000000))))
    (7 :: canonicalDigest digitLib
      (mapSet (mapSet aliceUnsignedWire "date" (.str "1700000000")) "expires"
        (.num 200000000)))
    "1700000000" 1700000000000000000
    (by decide) (by decide) (by decide) rfl (by decide) (by decide) rfl (by decide)
    (by decide) rfl).1

/-- C19. Two documents that hold the same entries, listed in whatever order,
have the same canonical serialization of the message-filtered mapping, whose
keys are written in sorted order, and `canonicalDigest` returns the same
bytes for both. -/
theorem C19_determinism (L : Lib) (D D' : GoMap) (hD : NodupKeys D) (hperm : D.Perm D') :
    Marshal L (.obj (edited D)) = Marshal L (.obj (edited D')) ∧
      (sortedKeys ((edited D).map Prod.fst)).Sorted keyLE ∧
      sortedKeys ((edited D).map Prod.fst) = sortedKeys ((edited D').map Prod.fst) ∧
      canonicalDigest L D = canonicalDigest L D' := by
  have hD' : NodupKeys D' := (List.Perm.nodup_iff (hperm.map Prod.fst)).1 hD
  have hl : ∀ k, (edited D).lookup k = (edited D').lookup k := by
    intro k
    rw [lookup_edited D hD, lookup_edited D' hD', lookup_eq_of_perm D D' hD hperm k]
  have hp : (edited D).Perm (edited D') :=
    perm_of_lookup_eq _ _ (nodupKeys_edited D hD) (nodupKeys_edited D' hD') hl
  have hm : Marshal L (.obj (edited D)) = Marshal L (.obj (edited D')) :=
    marshalVal_obj_congr L _ _ _ (nodupKeys_edited D hD) (nodupKeys_edited D' hD') hl
  refine ⟨hm, List.sorted_insertionSort keyLE _, sortedKeys_perm _ _ (hp.map Prod.fst), ?_⟩
  unfold canonicalDigest canon
  rw [hm]

/-- The determinism of C19 on `personDoc` and the same entries in reverse
order. -/
theorem C19_determinism_witness :
    Marshal toyLib (.obj (edited personDoc)) = Marshal toyLib (.obj (edited personDoc.reverse)) ∧
      (sortedKeys ((edited personDoc).map Prod.fst)).Sorted keyLE ∧
      sortedKeys ((edited personDoc).map Prod.fst) =
        sortedKeys ((edited personDoc.reverse).map Prod.fst) ∧
      canonicalDigest toyLib personDoc = canonicalDigest toyLib personDoc.reverse :=
  C19_determinism toyLib personDoc personDoc.reverse (by decide) (List.reverse_perm _).symm

/-- C20. For a signature made by `CreateSignature`, the bytes the signer
hashes, which `MarshalJSON` writes before the signature bytes are set, are the
bytes `ParseSignature` hashes for the decoded wire object of the finished
signature: what `json.Marshal` writes for that object with "sig" removed and
the message filter applied. Both sides hash to the same self-signature
digest. -/
theorem C20_same_bytes (L : Lib) (now : Int) (D : GoMap) (K : RSAPrivateKey)
    (includeDate : Bool) (validity : Int) (s : Signature) (wire decoded : GoMap)
    (hcreate : CreateSignature L now D K includeDate validity = .ok s)
    (hwire : wireObject L s = some wire)
    (hdec : decoded.Perm wire) :
    ∃ sigJson,
      MarshalJSON L (unsignedSignature L now D K includeDate validity) = some sigJson ∧
      Marshal L (.obj (edited (copyMap decoded (fun key => key != "sig")))) = some sigJson ∧
      canonicalDigest L (copyMap decoded (fun key => key != "sig")) = L.sha1 sigJson := by
  obtain ⟨kb, sigJson, sb, hkb, hjson, _, hs⟩ :=
    CreateSignature_ok L now D K includeDate validity s hcreate
  have hspk : s.PublicKey = K.PublicKey := by rw [hs]; rfl
  have hlist : wireList L s kb =
      wireList L (unsignedSignature L now D K includeDate validity) kb := by rw [hs]; rfl
  have hsig : wireSig L s = [("sig", .str (L.b64encode sb))] := by rw [hs]; rfl
  rw [wireObject_eq, hspk, hkb] at hwire
  simp only [Option.map_some', Option.some.injEq] at hwire
  rw [← hwire, hsig] at hdec
  have hsigner : MarshalJSON L (unsignedSignature L now D K includeDate validity) =
      some sigJson := by
    unfold MarshalJSON
    rw [wireObject_eq]
    have hpk : (unsignedSignature L now D K includeDate validity).PublicKey = K.PublicKey := rfl
    have hw : wireSig L (unsignedSignature L now D K includeDate validity) = [] := rfl
    rw [hpk, hkb]
    simp only [Option.map_some', hw, List.append_nil]
    exact hjson
  have hverifier :
      Marshal L (.obj (edited (copyMap decoded (fun key => key != "sig")))) = some sigJson := by
    unfold Marshal
    rw [selfDigest_marshal L _ (wireList L s kb) decoded _ (wireList_nodup L s kb _)
      (wireList_keys L s kb) hdec, wireList_marshal L s kb (MarshalJSON L) (fun _ => none),
      hlist, hjson]
  refine ⟨sigJson, hsigner, hverifier, ?_⟩
  unfold canonicalDigest canon
  rw [hverifier]
  rfl

set_option maxRecDepth 8000 in
/-- The bytes of C20 for the signature of `aliceDoc` made at `t0` with a
validity of one hour, the decoded entries listed in reverse order. -/
theorem C20_same_bytes_witness :
    ∃ sigJson,
      MarshalJSON toyLib (unsignedSignature toyLib t0 aliceDoc toyKey true (3600 * Second)) =
        some sigJson ∧
      Marshal toyLib (.obj (edited (copyMap (datedWire (3600 * Second)).reverse
        (fun key => key != "sig")))) = some sigJson ∧
      canonicalDigest toyLib (copyMap (datedWire (3600 * Second)).reverse
        (fun key => key != "sig")) = toyLib.sha1 sigJson :=
  C20_same_bytes toyLib t0 aliceDoc toyKey true (3600 * Second) (datedSig (3600 * Second))
    (datedWire (3600 * Second)) (datedWire (3600 * Second)).reverse
    (by decide) rfl (List.reverse_perm _)


end JsonSig
